import Mathlib

/-!
Verification of the scoring / price-history-acquisition / backtest core of the
time-to-sell web backend.

The Python sources are shallowly embedded:

* Python floats are modelled as exact rationals (`ℚ`); decimal literals such as
  `0.6` are read as the exact rationals they denote.
* `round(x, 2)` (banker's rounding, half to even) is modelled exactly by
  `round2`, and `math.floor` by `Int.floor`.
* ISO date strings are modelled by their ordinal day number (`ℤ`); the code
  only ever subtracts dates or carries them along unchanged.
* values that may be `None`/`NaN` (as checked by `_validate_history`) are
  modelled by `PyVal`; elsewhere prices are plain `ℚ`.
* fallible functions return `Option`/`Except`; a raised exception is an
  `Except.error`.
* network effects are modelled by passing the per-attempt outcomes of the
  external provider in as data; mutable state (cache table, last-good table)
  is threaded explicitly in and out.
-/

set_option maxRecDepth 100000

/-! ## Numeric basics: Python rounding -/

/-- Python `round(x)`: nearest integer, ties to even (banker's rounding),
modelled exactly on `ℚ`. -/
def pyRound (q : ℚ) : ℤ :=
  let f := ⌊q⌋
  let r := q - f
  if r < 1/2 then f
  else if 1/2 < r then f + 1
  else if f % 2 = 0 then f else f + 1

/-- Python `round(x, 2)` on `ℚ`. -/
def round2 (q : ℚ) : ℚ := (pyRound (q * 100) : ℚ) / 100

/-! ## scoring/technical.py -/

def ULTRA_LONG_ATTENUATION_FLOOR : ℚ := 6/10

def ULTRA_LONG_ATTENUATION_SLOPE : ℚ := 15/10

/-- Convergence adjustment amplitude (max plus-or-minus points added to the
technical score). -/
def CONVERGENCE_ADJ_MAX : ℚ := 8

/-- The list built by the loop body of `moving_average`: for each start index
`j` (Python `i - window + 1`), the mean of `prices[j : j + window]`. -/
def ma_list (prices : List ℚ) (window : ℕ) : List ℚ :=
  (List.range (prices.length - (window - 1))).map fun j =>
    ((prices.drop j).take window).sum / window

/-- Source `moving_average(prices, window)`; `none` models the
`ValueError("Not enough data for MA{window}")` raise. -/
def moving_average (prices : List ℚ) (window : ℕ) : Option (List ℚ) :=
  if prices.length < window then none else some (ma_list prices window)

/-- Source `latest_moving_average(prices, window)`: mean of the trailing `window`
closes (`prices[-window:]`), or `None` when data is short. -/
def latest_moving_average (prices : List ℚ) (window : ℕ) : Option ℚ :=
  if prices.length < window then none
  else some ((prices.drop (prices.length - window)).sum / window)

/-- Source `calculate_ultra_long_mas(price_history)`. -/
def calculate_ultra_long_mas (price_history : List (ℤ × ℚ)) : Option ℚ × Option ℚ :=
  let closes := price_history.map Prod.snd
  (latest_moving_average closes 500, latest_moving_average closes 1000)

/-- Source `below_ratio(price, ma)`. -/
def below_ratio (price : ℚ) (ma : Option ℚ) : Option ℚ :=
  match ma with
  | none => none
  | some m =>
    if m = 0 then none
    else if m ≤ price then some 0
    else some ((m - price) / m)

/-- Source `calculate_ultra_long_attenuation(price, ma500, ma1000)`. -/
def calculate_ultra_long_attenuation (price : ℚ) (ma500 ma1000 : Option ℚ) : Option ℚ :=
  match below_ratio price ma500, below_ratio price ma1000 with
  | some dd500, some dd1000 =>
    some (max ULTRA_LONG_ATTENUATION_FLOOR
      (1 - max dd500 dd1000 * ULTRA_LONG_ATTENUATION_SLOPE))
  | _, _ => none

/-- Source `clip(value, lower=0.0, upper=100.0)`. -/
def clip (value : ℚ) (lower : ℚ := 0) (upper : ℚ := 100) : ℚ :=
  max lower (min upper value)

/-- Source `_slope(series, lookback)`: `(last − value N bars ago) / N`, `None` when
the series is too short (a Lean list is never Python `None`). -/
def slope_of (series : List ℚ) (lookback : ℕ := 5) : Option ℚ :=
  if series.length < lookback + 1 then none
  else some ((series.getLastD 0 - series.getD (series.length - (lookback + 1)) 0) / lookback)

/-- Condition `x is not None and x < 0` on an optional slope. -/
def slope_lt_zero (o : Option ℚ) : Bool :=
  match o with
  | some s => decide (s < 0)
  | none => false

/-- Condition `x is not None and x <= 0` on an optional slope. -/
def slope_le_zero (o : Option ℚ) : Bool :=
  match o with
  | some s => decide (s ≤ 0)
  | none => false

/-- Condition `x is not None and x > 0` on an optional slope. -/
def slope_gt_zero (o : Option ℚ) : Bool :=
  match o with
  | some s => decide (0 < s)
  | none => false

/-- Condition `x is not None and x >= 0` on an optional slope. -/
def slope_ge_zero (o : Option ℚ) : Bool :=
  match o with
  | some s => decide (0 ≤ s)
  | none => false

/-- Result record of `detect_ma200_convergence`.  The Python function returns a
debug dict; the fields consumed downstream (`side`, `score`, `danger`) and the
deviation reported in the dict are modelled, the purely diagnostic echo fields
(`ma10` .. `ma200`, `signals`, `debug`) are not. -/
structure Convergence where
  side : String
  score : ℚ
  speed : String
  danger : ℚ
  deviation_200 : Option ℚ
deriving DecidableEq

/-- Source `detect_ma200_convergence(closes, deviation_trigger=0.05, danger_full=0.25,
slope_lookback=5)`.  Inside the `len ≥ 200` guard all four moving averages
exist, so `ma_list` is used directly (the `moving_average` raise cannot
fire). -/
def detect_ma200_convergence (closes : List ℚ)
    (deviation_trigger : ℚ := 5/100) (danger_full : ℚ := 25/100)
    (slope_lookback : ℕ := 5) : Convergence :=
  if closes.length < 200 then
    { side := "neutral", score := 0, speed := "unknown", danger := 0,
      deviation_200 := none }
  else
    let price := closes.getLastD 0
    let ma10_series := ma_list closes 10
    let ma25_series := ma_list closes 25
    let ma50_series := ma_list closes 50
    let ma200_series := ma_list closes 200
    let ma10 := ma10_series.getLastD 0
    let ma25 := ma25_series.getLastD 0
    let ma50 := ma50_series.getLastD 0
    let ma200 := ma200_series.getLastD 0
    let deviation_200 := (price - ma200) / ma200
    let danger := min (|deviation_200| / danger_full) 1 * 100
    let upper_extreme := deviation_trigger ≤ deviation_200
    let lower_extreme := deviation_200 ≤ -deviation_trigger
    if ¬ (upper_extreme ∨ lower_extreme) then
      { side := "neutral", score := 0, speed := "unknown",
        danger := round2 danger,
        deviation_200 := some (round2 (deviation_200 * 100)) }
    else
      let ma10_slope := slope_of ma10_series slope_lookback
      let ma25_slope := slope_of ma25_series slope_lookback
      if upper_extreme then
        let score : ℚ :=
          (if ma10 < ma25 then 30 else 0) + (if ma25 ≤ ma50 then 25 else 0)
          + (if slope_lt_zero ma10_slope then 20 else 0)
          + (if slope_le_zero ma25_slope then 10 else 0)
          + (if price < ma10 then 15 else 0)
        let stack_complete := ma10 < ma25 ∧ ma25 < ma50
        let stack_partial := ma10 < ma25 ∧ ¬ ma25 ≤ ma50
        let strong := slope_lt_zero ma10_slope
        let speed :=
          if stack_complete ∧ strong then "fast"
          else if stack_partial ∧ strong then "normal"
          else if strong then "slow" else "unknown"
        { side := "down_convergence", score := round2 (max 0 (min score 100)),
          speed := speed, danger := round2 danger,
          deviation_200 := some (round2 (deviation_200 * 100)) }
      else
        let score : ℚ :=
          (if ma25 < ma10 then 30 else 0) + (if ma50 ≤ ma25 then 25 else 0)
          + (if slope_gt_zero ma10_slope then 20 else 0)
          + (if slope_ge_zero ma25_slope then 10 else 0)
          + (if ma10 < price then 15 else 0)
        let stack_complete := ma25 < ma10 ∧ ma50 < ma25
        let stack_partial := ma25 < ma10 ∧ ¬ ma50 ≤ ma25
        let strong := slope_gt_zero ma10_slope
        let speed :=
          if stack_complete ∧ strong then "fast"
          else if stack_partial ∧ strong then "normal"
          else if strong then "slow" else "unknown"
        { side := "up_convergence", score := round2 (max 0 (min score 100)),
          speed := speed, danger := round2 danger,
          deviation_200 := some (round2 (deviation_200 * 100)) }

/-- Source `_calc_convergence_adjustment(convergence, amp=CONVERGENCE_ADJ_MAX)`.
(The `if not convergence` guard for an empty dict has no counterpart: a
`Convergence` record is always populated.) -/
def calc_convergence_adjustment (convergence : Convergence)
    (amp : ℚ := CONVERGENCE_ADJ_MAX) : ℚ :=
  let raw := convergence.score / 100 * (convergence.danger / 100)
  if convergence.side = "down_convergence" then amp * raw
  else if convergence.side = "up_convergence" then -amp * raw
  else 0

/-- Sorted insertion, used to model Python `sorted(set(...))`. -/
def insert_sorted (n : ℕ) : List ℕ → List ℕ
  | [] => [n]
  | m :: rest => if n ≤ m then n :: m :: rest else m :: insert_sorted n rest

/-- Python `sorted(set([20, 60, 200, base_window]))`. -/
def tech_windows (base_window : ℕ) : List ℕ :=
  if base_window = 20 ∨ base_window = 60 ∨ base_window = 200 then [20, 60, 200]
  else insert_sorted base_window [20, 60, 200]

/-- Source `is_increasing(series)` from `calculate_technical_score`:
`series[-1] > series[-20]`, `False` when shorter than 20. -/
def is_increasing (series : List ℚ) : Bool :=
  if series.length < 20 then false
  else decide (series.getD (series.length - 20) 0 < series.getLastD 0)

/-- Source `is_decreasing(series)` from `calculate_technical_score`. -/
def is_decreasing (series : List ℚ) : Bool :=
  if series.length < 20 then false
  else decide (series.getLastD 0 < series.getD (series.length - 20) 0)

/-- The deviation `d = (current_price - ma_base) / ma_base * 100` computed by
`calculate_technical_score`. -/
def tech_d (closes : List ℚ) (base_window : ℕ) : ℚ :=
  let ma_base := (ma_list closes base_window).getLastD 0
  (closes.getLastD 0 - ma_base) / ma_base * 100

/-- The piecewise base score of `calculate_technical_score`. -/
def t_base_piecewise (d : ℚ) : ℚ :=
  if d ≤ -20 then 0
  else if d < 0 then 30 * (d + 20) / 20
  else if d < 10 then 30 + 20 * d / 10
  else if d < 25 then 50 + 30 * (d - 10) / 15
  else 100

/-- The trend bonus of `calculate_technical_score`: `windows[0]`, `windows[1]`,
`windows[-1]` are the short/mid/long windows; the increase test runs on
`ma_short_series[-20:]`. -/
def tech_t_trend (closes : List ℚ) (base_window : ℕ) : ℚ :=
  let ws := tech_windows base_window
  let ma_short_series := ma_list closes (ws.headD 0)
  let ma_mid_series := ma_list closes (ws.getD 1 0)
  let ma_long_series := ma_list closes (ws.getLastD 0)
  let ma_short := ma_short_series.getLastD 0
  let ma_mid := ma_mid_series.getLastD 0
  let ma_long := ma_long_series.getLastD 0
  let tail20 := ma_short_series.drop (ma_short_series.length - 20)
  if ma_mid < ma_short ∧ ma_long < ma_mid ∧ is_increasing tail20 then 10
  else if ma_short < ma_mid ∧ ma_mid < ma_long ∧ is_decreasing tail20 then -10
  else 0

/-- Breakdown record returned by `calculate_technical_score` (the echo fields
`base_window`/`convergence_adj_max` that merely restate the inputs are kept
out). -/
structure TechInfo where
  d : ℚ
  T_base : ℚ
  T_trend : ℚ
  T_conv_adj : ℚ
  technical_score_raw : ℚ
  technical_score_adj : ℚ
  ma_base : ℚ
  convergence : Convergence

/-- Source `calculate_technical_score(price_history, base_window=200)`.  The moving
averages are taken for `sorted(set([20, 60, 200, base_window]))`; if the
history is shorter than the largest window (`max 200 base_window`),
`moving_average` raises, modelled by `none`. -/
def calculate_technical_score (price_history : List (ℤ × ℚ))
    (base_window : ℕ := 200) : Option (ℚ × TechInfo) :=
  let closes := price_history.map Prod.snd
  if closes.length < max 200 base_window then none
  else
    let d := tech_d closes base_window
    let t_base := t_base_piecewise d
    let t_trend := tech_t_trend closes base_window
    let technical_score_raw := clip (t_base + t_trend)
    let convergence := detect_ma200_convergence closes
    let t_conv_adj := calc_convergence_adjustment convergence
    let technical_score := clip (technical_score_raw + t_conv_adj)
    some (round2 technical_score,
      { d := round2 d
        T_base := round2 t_base
        T_trend := round2 t_trend
        T_conv_adj := round2 t_conv_adj
        technical_score_raw := round2 technical_score_raw
        technical_score_adj := round2 technical_score
        ma_base := round2 ((ma_list closes base_window).getLastD 0)
        convergence := convergence })

/-! ## scoring/total_score.py -/

/-- Source `calculate_total_score(technical, macro, event_adjustment, current_price,
ma500, ma1000)`. -/
def calculate_total_score (technical macro_input event_adjustment : ℚ)
    (current_price : Option ℚ := none) (ma500 : Option ℚ := none)
    (ma1000 : Option ℚ := none) : ℚ :=
  let raw_score := round2 (7/10 * technical + 3/10 * macro_input + event_adjustment)
  let attenuation : Option ℚ :=
    match current_price with
    | some p => calculate_ultra_long_attenuation p ma500 ma1000
    | none => none
  let final_score :=
    match attenuation with
    | some a => raw_score * a
    | none => raw_score
  clip final_score

/-- Written from the spec, for comparison with `calculate_total_score`: the
spec claims `rawScore = clip(0.7*technical + 0.3*macro + eventAdjustment,
0, 100)` is clipped FIRST and only then multiplied by the attenuation. -/
def calculate_total_score_specOrder (technical macro_input event_adjustment : ℚ)
    (current_price : Option ℚ := none) (ma500 : Option ℚ := none)
    (ma1000 : Option ℚ := none) : ℚ :=
  let raw_score := clip (7/10 * technical + 3/10 * macro_input + event_adjustment)
  let attenuation : Option ℚ :=
    match current_price with
    | some p => calculate_ultra_long_attenuation p ma500 ma1000
    | none => none
  let final_score :=
    match attenuation with
    | some a => raw_score * a
    | none => raw_score
  clip final_score

/-! ## services/sp500_market_service.py -/

/-- A fetched price value: may be Python `None`, `NaN`, or a real float. -/
inductive PyVal where
  | pynone : PyVal
  | pynan : PyVal
  | pyval : ℚ → PyVal
deriving DecidableEq

/-- The float payload of a `PyVal` (0 as a harmless default on the `None`/`NaN`
constructors, which the call sites below only reach after every point has been
checked to be a positive float). -/
def pyval_q : PyVal → ℚ
  | .pyval q => q
  | _ => 0

/-- One point of a fetched history: (ISO date as ordinal day, close). -/
abbrev HistPoint := ℤ × PyVal

/-- The `min_points_map` lookup with default 300. -/
def min_points_for (index_type : String) : ℕ :=
  if index_type = "SP500" then 450
  else if index_type = "TOPIX" then 400
  else if index_type = "NIKKEI" then 400
  else if index_type = "NIFTY50" then 350
  else if index_type = "ORUKAN" then 300
  else if index_type = "orukan_jpy" then 300
  else if index_type = "sp500_jpy" then 450
  else 300

/-- Lookup `self.start_prices.get(index_type)` (all entries are nonzero, so Python
truthiness of the lookup is just `some`-ness). -/
def start_price_for (index_type : String) : Option ℚ :=
  if index_type = "SP500" then some 4000
  else if index_type = "TOPIX" then some 1500
  else if index_type = "NIKKEI" then some 15000
  else if index_type = "NIFTY50" then some 4000
  else if index_type = "ORUKAN" then some 15000
  else if index_type = "orukan_jpy" then some 15000
  else if index_type = "sp500_jpy" then some 4000
  else none

/-- The per-point loop of `_validate_history`: checks `None`/`NaN`/non-positive
values and the day-over-day jump against the previous value (`prev` starts as
`None`; the Python guard `if prev and prev > 0` is `some p` with `0 < p`).
Numeric payloads of reason strings are rendered with `toString` in place of
Python string formatting. -/
def check_prices (prev : Option ℚ) : List PyVal → Option String
  | [] => none
  | v :: rest =>
    match v with
    | .pynone => some "invalid_price:none"
    | .pynan => some "invalid_price:nan"
    | .pyval q =>
      if q ≤ 0 then some ("invalid_price:non_positive:" ++ toString q)
      else
        match prev with
        | some p =>
          if 0 < p ∧ 1/5 < |(q - p) / p| then
            some ("abnormal_daily_jump:" ++ toString |(q - p) / p|)
          else check_prices (some q) rest
        | none => check_prices (some q) rest

/-- Quantity `span_days` of `_validate_history`: difference of last and first ordinal
dates clamped at 0 (dates here always parse, so the `except` branch that
resets the span to 0 is unreachable). -/
def history_span_days (history : List HistPoint) : ℤ :=
  max 0 ((history.getLastD (0, .pyval 0)).1 - (history.headD (0, .pyval 0)).1)

/-- Value `history[-1][1]` as a float (meaningful once every point passed the value
checks). -/
def history_last_value (history : List HistPoint) : ℚ :=
  pyval_q (history.getLastD (0, .pyval 0)).2

/-- Source `_validate_history(history, index_type)`: `none` = accepted, `some reason`
= the typed rejection reason. -/
def validate_history (history : List HistPoint) (index_type : String) : Option String :=
  if history.isEmpty then some "empty_history"
  else
    let min_points := min_points_for index_type
    if history.length < 30 then some ("too_few_points:" ++ toString history.length)
    else if 365 * 3 ≤ history_span_days history ∧ history.length < min_points then
      some ("insufficient_points:" ++ toString history.length ++ "<" ++ toString min_points)
    else
      match check_prices none (history.map (fun p => p.2)) with
      | some reason => some reason
      | none =>
        let last_price := history_last_value history
        if index_type = "SP500" ∧ last_price < 3000 then
          some ("abnormal_sp500_price:" ++ toString last_price)
        else
          match start_price_for index_type with
          | some start_price =>
            if last_price < start_price * (4/10) then
              some ("abnormal_scale_low:" ++ toString last_price)
            else if start_price * 5 < last_price then
              some ("abnormal_scale_high:" ++ toString last_price)
            else none
          | none => none

/-- Python `round(float(v), 2)` applied to one history point (on a non-float value it
is the identity; such points never reach this function in the source). -/
def round_point : HistPoint → HistPoint
  | (d, .pyval q) => (d, .pyval (round2 q))
  | p => p

/-- Source `_update_last_good_history(index_type, history)`: the value stored into
`self._last_good_history[index_type]`. -/
def update_last_good_history (history : List HistPoint) : List HistPoint :=
  history.map round_point

/-- Outcome of one yfinance download attempt: either a raised exception
(with its message) or a downloaded raw series. -/
inductive FetchOutcome where
  | fetch_error : String → FetchOutcome
  | fetched : List HistPoint → FetchOutcome

/-- Source `_fetch_yfinance_history_with_retry`, with the network abstracted as the
list of per-attempt outcomes (the source makes `len(backoffs) = 3` attempts;
sleeps are irrelevant to the result).  State in: the `_last_good_history`
entry for this index key; state out: that entry after the call, paired with
the returned history or the raised error. -/
def fetch_with_retry (index_type : String) :
    List FetchOutcome → Option (List HistPoint) → Option String →
    Option (List HistPoint) × Except String (List HistPoint)
  | [], last_good, last_error =>
    match last_good with
    | some lg => (some lg, .ok lg)
    | none => (none, .error (last_error.getD "history unavailable"))
  | outcome :: rest, last_good, last_error =>
    match outcome with
    | .fetch_error e => fetch_with_retry index_type rest last_good (some e)
    | .fetched raw =>
      let history := raw.map round_point
      match validate_history history index_type with
      | none => (some (update_last_good_history history), .ok history)
      | some reason => fetch_with_retry index_type rest last_good (some reason)

/-! ## services/price_history_service.py -/

/-- Source `CacheEntry(data, fetched_at)`; timestamps are integers (the code only
compares `now - fetched_at` with the ttl). -/
structure CacheEntry where
  data : List (ℤ × ℚ)
  fetched_at : ℤ
deriving DecidableEq

/-- Outcome of one `market_service.get_price_history_range` call inside
`get_history`: a raised exception or a returned series. -/
inductive AttemptOutcome where
  | attempt_error : String → AttemptOutcome
  | attempt_ok : List (ℤ × ℚ) → AttemptOutcome

/-- An attempt that does not produce a usable history: an exception, or an
empty series (which `get_history` turns into `ValueError("empty price
history")`). -/
def attempt_fails : AttemptOutcome → Prop
  | .attempt_error _ => True
  | .attempt_ok h => h = []

/-- The retry loop of `PriceHistoryService.get_history`.  `attempts` is the
outcome of each provider call, one per loop iteration (`max_retries` of them
in the source); the second component counts provider calls actually made.
`cached` is the entry that was read at the top of `get_history` (the code
falls back to that same object). -/
def get_history_loop :
    List AttemptOutcome → Option CacheEntry → ℤ → ℕ → Option String →
    Option CacheEntry × ℕ × Except String (List (ℤ × ℚ))
  | [], cached, _now, calls, last_error =>
    match cached with
    | some c => (some c, calls, .ok c.data)
    | none => (none, calls, .error (last_error.getD "price history fetch failed"))
  | a :: rest, cached, now, calls, last_error =>
    match a with
    | .attempt_error e => get_history_loop rest cached now (calls + 1) (some e)
    | .attempt_ok h =>
      if h.isEmpty then
        get_history_loop rest cached now (calls + 1) (some "empty price history")
      else (some ⟨h, now⟩, calls + 1, .ok h)

/-- Source `PriceHistoryService.get_history` for one cache key: state in/out is the
`_cache` entry under that key; the result triple is (cache entry after the
call, number of provider calls made, returned history or raised
`PriceHistoryFetchError`). -/
def get_history (attempts : List AttemptOutcome) (cached : Option CacheEntry)
    (now ttl : ℤ) : Option CacheEntry × ℕ × Except String (List (ℤ × ℚ)) :=
  match cached with
  | some c =>
    if now - c.fetched_at < ttl then (some c, 0, .ok c.data)
    else get_history_loop attempts cached now 0 none
  | none => get_history_loop attempts cached now 0 none

/-! ## services/backtest_service.py -/

/-- A `TradeRecord` dict appended by the simulation loop. -/
structure Trade where
  action : String
  date : ℤ
  quantity : ℤ
  price : ℚ
deriving DecidableEq

/-- The fields of the `run_backtest` result dict used by the claims
(`cagr_pct` needs real exponentiation and `max_drawdown_pct` its own pass;
neither is referenced by any claim and both are computed from the fields
below after the loop). -/
structure BacktestResult where
  final_value : ℚ
  buy_and_hold_final : ℚ
  total_return_pct : ℚ
  trade_count : ℕ
  trades : List Trade
  portfolio_history : List (ℤ × ℚ)
  buy_hold_history : List (ℤ × ℚ)

/-- One day of trading decisions inside `run_backtest`: given the day index,
date and close, updates `(cash, shares)` and possibly emits a trade.  The
composite score of `_calculate_scores` (technical + macro + event services)
is abstracted as a function `score` of the visible sub-history
`price_history[: idx + 1]`. -/
def bt_trade (score : List (ℤ × ℚ) → ℚ) (full : List (ℤ × ℚ)) (score_ma : ℕ)
    (buy_threshold sell_threshold : ℚ) (idx : ℕ) (date : ℤ) (close : ℚ)
    (cash : ℚ) (shares : ℤ) : ℚ × ℤ × Option Trade :=
  if max (score_ma - 1) 199 ≤ idx then
    let sc := score (full.take (idx + 1))
    if 0 < shares ∧ sell_threshold ≤ sc then
      (cash + shares * close, 0, some ⟨"SELL", date, shares, close⟩)
    else if shares = 0 ∧ sc < buy_threshold then
      let qty := ⌊cash / close⌋
      if 0 < qty then (cash - qty * close, shares + qty, some ⟨"BUY", date, qty, close⟩)
      else (cash, shares, none)
    else (cash, shares, none)
  else (cash, shares, none)

/-- The simulation loop of `run_backtest`: returns final cash, final shares,
the trade list, and the portfolio history (each day appends
`(date, round(cash + shares*close, 2))` with the post-trade state). -/
def bt_loop (score : List (ℤ × ℚ) → ℚ) (full : List (ℤ × ℚ)) (score_ma : ℕ)
    (buy_threshold sell_threshold : ℚ) :
    ℕ → List (ℤ × ℚ) → ℚ → ℤ → ℚ × ℤ × List Trade × List (ℤ × ℚ)
  | _idx, [], cash, shares => (cash, shares, [], [])
  | idx, (date, close) :: rest, cash, shares =>
    match bt_trade score full score_ma buy_threshold sell_threshold idx date close cash shares with
    | (cash2, shares2, tr) =>
      match bt_loop score full score_ma buy_threshold sell_threshold (idx + 1) rest cash2 shares2 with
      | (fc, fs, ts, ph) =>
        (fc, fs, tr.toList ++ ts, (date, round2 (cash2 + shares2 * close)) :: ph)

/-- The post-trade `(cash, shares)` state of each simulated day, in order
(a projection of `bt_loop` used to state the conservation invariant). -/
def bt_states (score : List (ℤ × ℚ) → ℚ) (full : List (ℤ × ℚ)) (score_ma : ℕ)
    (buy_threshold sell_threshold : ℚ) :
    ℕ → List (ℤ × ℚ) → ℚ → ℤ → List (ℚ × ℤ)
  | _idx, [], _cash, _shares => []
  | idx, (date, close) :: rest, cash, shares =>
    match bt_trade score full score_ma buy_threshold sell_threshold idx date close cash shares with
    | (cash2, shares2, _) =>
      (cash2, shares2) :: bt_states score full score_ma buy_threshold sell_threshold (idx + 1) rest cash2 shares2

/-- The message of the `ValueError` raised by `run_backtest` on insufficient
history. -/
def insufficient_history_message (required_points : ℕ) : String :=
  "Not enough price history to run backtest (need >= " ++ toString required_points ++ " days)"

/-- Source `BacktestService.run_backtest(start_date, end_date, initial_cash,
buy_threshold=40, sell_threshold=80, index_type, score_ma=200)`, starting from
the already-fetched `price_history` (the fetch itself belongs to the
acquisition layer).  The scoring services are abstracted by `score` as in
`bt_trade`. -/
def run_backtest (score : List (ℤ × ℚ) → ℚ) (price_history : List (ℤ × ℚ))
    (initial_cash : ℚ) (buy_threshold : ℚ := 40) (sell_threshold : ℚ := 80)
    (score_ma : ℕ := 200) : Except String BacktestResult :=
  let required_points := max 200 score_ma
  if price_history.length < required_points then
    .error (insufficient_history_message required_points)
  else
    let first_price := (price_history.headD (0, 0)).2
    let hold_shares := ⌊initial_cash / first_price⌋
    let hold_cash := initial_cash - hold_shares * first_price
    match bt_loop score price_history score_ma buy_threshold sell_threshold 0 price_history initial_cash 0 with
    | (cash, shares, trades, portfolio_history) =>
      let final_price := (price_history.getLastD (0, 0)).2
      let final_value := cash + shares * final_price
      let buy_hold_final := hold_cash + hold_shares * final_price
      let total_return := if initial_cash = 0 then 0 else final_value / initial_cash - 1
      .ok {
        final_value := round2 final_value
        buy_and_hold_final := round2 buy_hold_final
        total_return_pct := round2 (total_return * 100)
        trade_count := trades.length
        trades := trades
        portfolio_history := portfolio_history
        buy_hold_history := price_history.map (fun p => (p.1, round2 (hold_cash + hold_shares * p.2))) }

/-! ## Statement-level definitions taken from the spec wording -/

/-- A point whose value is a positive float (neither `None`, `NaN`, nor
non-positive) — the per-point acceptance condition of the spec. -/
def is_positive_float : PyVal → Prop
  | .pyval q => 0 < q
  | _ => False

/-- The float payloads of a history, in order. -/
def history_values (history : List HistPoint) : List ℚ :=
  history.map (fun p => pyval_q p.2)

/-- The defects enumerated by the spec sentence behind claim C4: empty series;
fewer than 30 points; span of at least 3 years with fewer than the
instrument-specific minimum point count; a point that is null, NaN or
non-positive; a day-over-day change exceeding 20% in magnitude. -/
def claimed_defect (history : List HistPoint) (index_type : String) : Prop :=
  history = []
  ∨ history.length < 30
  ∨ (365 * 3 ≤ history_span_days history ∧ history.length < min_points_for index_type)
  ∨ (∃ p ∈ history, ¬ is_positive_float p.2)
  ∨ (∃ i a b, (history_values history).get? i = some a ∧
      (history_values history).get? (i + 1) = some b ∧ 1/5 < |(b - a) / a|)

/-- The instrument-scale sanity defects that `_validate_history` also rejects
(final close below the hard S&P 500 floor, or outside the
`[0.4, 5.0] × start price` band). -/
def scale_defect (history : List HistPoint) (index_type : String) : Prop :=
  (index_type = "SP500" ∧ history_last_value history < 3000)
  ∨ (∃ sp, start_price_for index_type = some sp ∧
      (history_last_value history < sp * (4/10) ∨ sp * 5 < history_last_value history))

/-- The pairwise no-jump condition used in the proofs about `check_prices`. -/
def jump_ok (a b : ℚ) : Prop := |(b - a) / a| ≤ 1/5

/-! ## Concrete example inputs -/

/-- Example: 200 closes, 170 days at 100, a crash to 80 for 25 days, then a 5-day
rebound to 90.  The last close sits about 7.46% below the 200-day average
(inside the 5%–15% band) while the short averages have turned up. -/
def exCloses : List ℚ :=
  List.replicate 170 100 ++ (List.replicate 25 80 ++ List.replicate 5 90)

/-- Example `exCloses` as a dated price history. -/
def ex_price_history : List (ℤ × ℚ) := exCloses.map (fun c => ((0:ℤ), c))

/-- The spec's validation example: 40 points, 39 closes at 100 and a final
close of 130 (a single-day +30% jump). -/
def ex_jump40 : List HistPoint :=
  ((0:ℤ), PyVal.pyval 100) ::
    (List.replicate 38 ((0:ℤ), PyVal.pyval 100) ++ [((0:ℤ), PyVal.pyval 130)])

/-- Example: 40 S&P 500 closes all at 2500, none of the defects listed in claim C4,
but below the hard 3000 floor of `_validate_history`. -/
def ex_flat2500 : List HistPoint :=
  ((0:ℤ), PyVal.pyval 2500) :: List.replicate 39 ((0:ℤ), PyVal.pyval 2500)

/-! ## Helper lemmas: rounding -/

theorem pyRound_intCast (n : ℤ) : pyRound (n : ℚ) = n := by
  unfold pyRound
  simp [Int.floor_intCast]

theorem round2_eq_self_of_int (q : ℚ) (n : ℤ) (h : q * 100 = (n : ℚ)) : round2 q = q := by
  rw [round2, h, pyRound_intCast, div_eq_iff (by norm_num : (100:ℚ) ≠ 0)]
  exact h.symm

theorem pyRound_eq_of_lt_half (q : ℚ) (n : ℤ) (h1 : (n:ℚ) ≤ q) (h2 : q < n + 1/2) :
    pyRound q = n := by
  have hf : ⌊q⌋ = n := by
    rw [Int.floor_eq_iff]
    exact ⟨h1, by push_cast; linarith⟩
  unfold pyRound
  rw [hf, if_pos (by push_cast at h2 ⊢; linarith)]

theorem pyRound_eq_of_gt_half (q : ℚ) (n : ℤ) (h1 : (n:ℚ) + 1/2 < q) (h2 : q < n + 1) :
    pyRound q = n + 1 := by
  have hf : ⌊q⌋ = n := by
    rw [Int.floor_eq_iff]
    exact ⟨by push_cast at h1 ⊢; linarith, by push_cast at h2 ⊢; linarith⟩
  unfold pyRound
  rw [hf, if_neg (by push_cast at h1 ⊢; linarith), if_pos (by push_cast at h1 ⊢; linarith)]

theorem round2_eq_of_lt_half (q : ℚ) (n : ℤ) (h1 : (n:ℚ) ≤ q * 100) (h2 : q * 100 < n + 1/2) :
    round2 q = (n:ℚ) / 100 := by
  rw [round2, pyRound_eq_of_lt_half (q * 100) n h1 h2]

theorem round2_eq_of_gt_half (q : ℚ) (n : ℤ) (h1 : (n:ℚ) + 1/2 < q * 100) (h2 : q * 100 < n + 1) :
    round2 q = ((n:ℚ) + 1) / 100 := by
  rw [round2, pyRound_eq_of_gt_half (q * 100) n h1 h2]
  push_cast
  ring

/-! ## Helper lemmas: moving-average series access -/

theorem length_ma_list (l : List ℚ) (w : ℕ) : (ma_list l w).length = l.length - (w - 1) := by
  simp [ma_list]

theorem getLastD_map_range {α : Type} (f : ℕ → α) (n : ℕ) (hn : 0 < n) (d : α) :
    ((List.range n).map f).getLastD d = f (n - 1) := by
  obtain ⟨m, rfl⟩ := Nat.exists_eq_succ_of_ne_zero hn.ne'
  rw [List.range_succ, List.map_append]
  simp [List.getLastD_concat]

theorem getD_map_range {α : Type} (f : ℕ → α) (n i : ℕ) (h : i < n) (d : α) :
    ((List.range n).map f).getD i d = f i := by
  rw [List.getD_eq_getElem?_getD, List.getElem?_map, List.getElem?_range h]
  rfl

theorem ma_list_getLastD (l : List ℚ) (w : ℕ) (h1 : 0 < w) (h2 : w ≤ l.length) :
    (ma_list l w).getLastD 0 = ((l.drop (l.length - w)).take w).sum / w := by
  rw [ma_list, getLastD_map_range _ _ (by omega) 0]
  have he : l.length - (w - 1) - 1 = l.length - w := by omega
  rw [he]

theorem ma_list_getD (l : List ℚ) (w i : ℕ) (h : i < l.length - (w - 1)) :
    (ma_list l w).getD i 0 = ((l.drop i).take w).sum / w := by
  rw [ma_list, getD_map_range _ _ _ h]

/-! ## Helper lemmas: scaling -/

theorem ma_list_map_mul (l : List ℚ) (w : ℕ) (k : ℚ) :
    ma_list (l.map (fun c => k * c)) w = (ma_list l w).map (fun c => k * c) := by
  unfold ma_list
  rw [List.length_map, List.map_map]
  apply List.map_congr_left
  intro j _
  simp only [Function.comp_apply]
  rw [← List.map_drop, ← List.map_take]
  have hs : (((l.drop j).take w).map (fun c => k * c)).sum = k * ((l.drop j).take w).sum := by
    simpa using List.sum_map_mul_left ((l.drop j).take w) (fun c => c) k
  rw [hs, mul_div_assoc]

theorem getLastD_map_mul (l : List ℚ) (k : ℚ) :
    (l.map (fun c => k * c)).getLastD 0 = k * l.getLastD 0 := by
  rw [List.getLastD_eq_getLast?, List.getLastD_eq_getLast?, List.getLast?_map]
  cases h : l.getLast? <;> simp [h]

theorem getD_map_mul (l : List ℚ) (k : ℚ) (i : ℕ) :
    (l.map (fun c => k * c)).getD i 0 = k * l.getD i 0 := by
  rw [List.getD_eq_getElem?_getD, List.getD_eq_getElem?_getD, List.getElem?_map]
  cases h : l[i]? <;> simp [h]

/-! ## Helper lemmas: attenuation and total score unfolding -/

theorem below_ratio_pos_ma (p m : ℚ) (hm : 0 < m) :
    below_ratio p (some m) = some (max 0 ((m - p) / m)) := by
  have h0 : below_ratio p (some m) =
      if m = 0 then none else if m ≤ p then some 0 else some ((m - p) / m) := rfl
  rw [h0, if_neg (ne_of_gt hm)]
  by_cases hp : m ≤ p
  · rw [if_pos hp]
    have hle : (m - p) / m ≤ 0 :=
      div_nonpos_of_nonpos_of_nonneg (by linarith) (le_of_lt hm)
    rw [max_eq_left hle]
  · rw [if_neg hp]
    have hge : 0 ≤ (m - p) / m :=
      le_of_lt (div_pos (by linarith [lt_of_not_le hp]) hm)
    rw [max_eq_right hge]

theorem clip_of_bounds (x : ℚ) (h0 : 0 ≤ x) (h1 : x ≤ 100) : clip x = x := by
  unfold clip
  rw [min_eq_right h1, max_eq_right h0]

theorem total_score_some_att (t m e p a : ℚ) (m5 m10 : Option ℚ)
    (h : calculate_ultra_long_attenuation p m5 m10 = some a) :
    calculate_total_score t m e (some p) m5 m10 =
      clip (round2 (7/10 * t + 3/10 * m + e) * a) := by
  have h0 : calculate_total_score t m e (some p) m5 m10 =
      clip (match calculate_ultra_long_attenuation p m5 m10 with
            | some a => round2 (7/10 * t + 3/10 * m + e) * a
            | none => round2 (7/10 * t + 3/10 * m + e)) := rfl
  rw [h0, h]

theorem total_score_no_att (t m e p : ℚ) (m5 m10 : Option ℚ)
    (h : calculate_ultra_long_attenuation p m5 m10 = none) :
    calculate_total_score t m e (some p) m5 m10 =
      clip (round2 (7/10 * t + 3/10 * m + e)) := by
  have h0 : calculate_total_score t m e (some p) m5 m10 =
      clip (match calculate_ultra_long_attenuation p m5 m10 with
            | some a => round2 (7/10 * t + 3/10 * m + e) * a
            | none => round2 (7/10 * t + 3/10 * m + e)) := rfl
  rw [h0, h]

theorem total_score_no_price (t m e : ℚ) (m5 m10 : Option ℚ) :
    calculate_total_score t m e none m5 m10 =
      clip (round2 (7/10 * t + 3/10 * m + e)) := rfl

theorem attenuation_no_ma500 (p : ℚ) (mo : Option ℚ) :
    calculate_ultra_long_attenuation p none mo = none := rfl

theorem attenuation_no_ma1000 (p : ℚ) (mo : Option ℚ) :
    calculate_ultra_long_attenuation p mo none = none := by
  unfold calculate_ultra_long_attenuation
  cases h : below_ratio p mo <;> rfl

theorem attenuation_at_70_100_100 :
    calculate_ultra_long_attenuation 70 (some 100) (some 100) = some (6/10) := by
  unfold calculate_ultra_long_attenuation
  rw [below_ratio_pos_ma 70 100 (by norm_num)]
  have hmax : max 0 ((100 - 70) / 100 : ℚ) = 3/10 := by
    rw [max_eq_right (by norm_num)]
    norm_num
  rw [hmax]
  unfold ULTRA_LONG_ATTENUATION_FLOOR ULTRA_LONG_ATTENUATION_SLOPE
  norm_num

/-- C3: with the current price and both (positive) ultra-long MAs available,
the attenuation is `max(0.6, 1 - ultraDD*1.5)` where `ultraDD` is the worst of
the two below-ratios `max(0, (MA - price)/MA)`; when either MA is unavailable
the total score is the raw score unchanged (`clip` is the identity on
[0,100]); and a price 30% below both MAs turns a raw score of 90 into 54. -/
theorem C3_attenuation_guard :
    (∀ p m5 m10 : ℚ, 0 < m5 → 0 < m10 →
      calculate_ultra_long_attenuation p (some m5) (some m10) =
        some (max (6/10)
          (1 - max (max 0 ((m5 - p) / m5)) (max 0 ((m10 - p) / m10)) * (15/10))))
    ∧ (∀ t m e p : ℚ, ∀ mo : Option ℚ,
        calculate_total_score t m e (some p) none mo =
          clip (round2 (7/10 * t + 3/10 * m + e)) ∧
        calculate_total_score t m e (some p) mo none =
          clip (round2 (7/10 * t + 3/10 * m + e)))
    ∧ (∀ x : ℚ, 0 ≤ x → x ≤ 100 → clip x = x)
    ∧ calculate_total_score 90 90 0 (some 70) (some 100) (some 100) = 54 := by
  refine ⟨?_, ?_, clip_of_bounds, ?_⟩
  · intro p m5 m10 h5 h10
    unfold calculate_ultra_long_attenuation
    rw [below_ratio_pos_ma p m5 h5, below_ratio_pos_ma p m10 h10]
    rfl
  · intro t m e p mo
    exact ⟨total_score_no_att t m e p none mo (attenuation_no_ma500 p mo),
      total_score_no_att t m e p mo none (attenuation_no_ma1000 p mo)⟩
  · rw [total_score_some_att 90 90 0 70 (6/10) (some 100) (some 100) attenuation_at_70_100_100]
    have hraw : round2 (7/10 * 90 + 3/10 * 90 + 0 : ℚ) = 90 := by
      rw [show (7/10 * 90 + 3/10 * 90 + 0 : ℚ) = 90 by norm_num]
      exact round2_eq_self_of_int 90 9000 (by norm_num)
    rw [hraw, show (90 : ℚ) * (6/10) = 54 by norm_num]
    exact clip_of_bounds 54 (by norm_num) (by norm_num)

/-- Witness for C3 at concrete inputs. -/
theorem C3_attenuation_guard_witness :
    calculate_ultra_long_attenuation 70 (some 100) (some 100) =
      some (max (6/10)
        (1 - max (max 0 ((100 - 70) / 100)) (max 0 ((100 - 70) / 100)) * (15/10))) ∧
    clip (55:ℚ) = 55 :=
  ⟨C3_attenuation_guard.1 70 100 100 (by decide) (by decide),
   C3_attenuation_guard.2.2.1 55 (by decide) (by decide)⟩

/-- C2 counterexample: with weighted sum `0.7*100 + 0.3*100 + 10 = 110 > 100`
and attenuation `0.6`, the code returns `clip(110*0.6) = 66`, while the
claimed clip-before-attenuation order (`calculate_total_score_specOrder`)
returns `clip(100*0.6) = 60`. -/
theorem C2_clip_order_counterexample :
    calculate_total_score 100 100 10 (some 70) (some 100) (some 100) = 66 ∧
    calculate_total_score_specOrder 100 100 10 (some 70) (some 100) (some 100) = 60 ∧
    calculate_total_score 100 100 10 (some 70) (some 100) (some 100) ≠
      calculate_total_score_specOrder 100 100 10 (some 70) (some 100) (some 100) := by
  have hraw : round2 (7/10 * 100 + 3/10 * 100 + 10 : ℚ) = 110 := by
    rw [show (7/10 * 100 + 3/10 * 100 + 10 : ℚ) = 110 by norm_num]
    exact round2_eq_self_of_int 110 11000 (by norm_num)
  have h1 : calculate_total_score 100 100 10 (some 70) (some 100) (some 100) = 66 := by
    rw [total_score_some_att 100 100 10 70 (6/10) (some 100) (some 100) attenuation_at_70_100_100]
    rw [hraw, show (110 : ℚ) * (6/10) = 66 by norm_num]
    exact clip_of_bounds 66 (by norm_num) (by norm_num)
  have h2 : calculate_total_score_specOrder 100 100 10 (some 70) (some 100) (some 100) = 60 := by
    have h0 : calculate_total_score_specOrder 100 100 10 (some 70) (some 100) (some 100) =
        clip (match calculate_ultra_long_attenuation 70 (some 100) (some 100) with
              | some a => clip (7/10 * 100 + 3/10 * 100 + 10) * a
              | none => clip (7/10 * 100 + 3/10 * 100 + 10)) := rfl
    rw [h0, attenuation_at_70_100_100]
    have hclip : clip (7/10 * 100 + 3/10 * 100 + 10 : ℚ) = 100 := by
      unfold clip
      norm_num
    rw [hclip]
    show clip ((100:ℚ) * (6/10)) = 60
    rw [show (100 : ℚ) * (6/10) = 60 by norm_num]
    exact clip_of_bounds 60 (by norm_num) (by norm_num)
  exact ⟨h1, h2, by rw [h1, h2]; norm_num⟩

/-- C2 amended: `calculate_total_score` rounds (but does not clip) the
weighted sum `0.7*technical + 0.3*macro + eventAdjustment`, multiplies it by
the attenuation when one is available, and clips only the final product to
[0,100]; when the current price is missing or the attenuation is unavailable
the rounded raw score itself is clipped. -/
theorem C2_attenuation_applied_to_unclipped_raw :
    (∀ t m e p a : ℚ, ∀ m5 m10 : Option ℚ,
      calculate_ultra_long_attenuation p m5 m10 = some a →
      calculate_total_score t m e (some p) m5 m10 =
        clip (round2 (7/10 * t + 3/10 * m + e) * a))
    ∧ (∀ t m e p : ℚ, ∀ m5 m10 : Option ℚ,
        calculate_ultra_long_attenuation p m5 m10 = none →
        calculate_total_score t m e (some p) m5 m10 =
          clip (round2 (7/10 * t + 3/10 * m + e)))
    ∧ (∀ t m e : ℚ, ∀ m5 m10 : Option ℚ,
        calculate_total_score t m e none m5 m10 =
          clip (round2 (7/10 * t + 3/10 * m + e))) :=
  ⟨fun t m e p a m5 m10 h => total_score_some_att t m e p a m5 m10 h,
   fun t m e p m5 m10 h => total_score_no_att t m e p m5 m10 h,
   fun t m e m5 m10 => total_score_no_price t m e m5 m10⟩

/-- Witness for the amended C2 at concrete inputs. -/
theorem C2_attenuation_applied_to_unclipped_raw_witness :
    calculate_total_score 100 100 10 (some 70) (some 100) (some 100) =
      clip (round2 (7/10 * 100 + 3/10 * 100 + 10) * (6/10)) :=
  C2_attenuation_applied_to_unclipped_raw.1 100 100 10 70 (6/10) (some 100) (some 100)
    attenuation_at_70_100_100

/-! ## Helper lemmas: cache loop and fetch retry -/

theorem get_history_loop_fail_fst :
    ∀ (attempts : List AttemptOutcome) (cached : Option CacheEntry) (now : ℤ)
      (calls : ℕ) (le : Option String), (∀ a ∈ attempts, attempt_fails a) →
      (get_history_loop attempts cached now calls le).1 = cached := by
  intro attempts
  induction attempts with
  | nil =>
    intro cached now calls le _
    cases cached <;> rfl
  | cons a rest ih =>
    intro cached now calls le hfail
    cases a with
    | attempt_error e =>
      exact ih cached now (calls + 1) (some e) (fun x hx => hfail x (List.mem_cons_of_mem _ hx))
    | attempt_ok h =>
      have he : h = [] := hfail _ (List.mem_cons_self _ _)
      subst he
      exact ih cached now (calls + 1) (some "empty price history")
        (fun x hx => hfail x (List.mem_cons_of_mem _ hx))

theorem get_history_loop_fail_some (c : CacheEntry) :
    ∀ (attempts : List AttemptOutcome) (now : ℤ) (calls : ℕ) (le : Option String),
      (∀ a ∈ attempts, attempt_fails a) →
      get_history_loop attempts (some c) now calls le =
        (some c, calls + attempts.length, Except.ok c.data) := by
  intro attempts
  induction attempts with
  | nil =>
    intro now calls le _
    simp [get_history_loop]
  | cons a rest ih =>
    intro now calls le hfail
    cases a with
    | attempt_error e =>
      rw [show get_history_loop (AttemptOutcome.attempt_error e :: rest) (some c) now calls le =
        get_history_loop rest (some c) now (calls + 1) (some e) from rfl]
      rw [ih now (calls + 1) (some e) (fun x hx => hfail x (List.mem_cons_of_mem _ hx))]
      simp [List.length_cons]
      omega
    | attempt_ok h =>
      have he : h = [] := hfail _ (List.mem_cons_self _ _)
      subst he
      rw [show get_history_loop (AttemptOutcome.attempt_ok [] :: rest) (some c) now calls le =
        get_history_loop rest (some c) now (calls + 1) (some "empty price history") from rfl]
      rw [ih now (calls + 1) _ (fun x hx => hfail x (List.mem_cons_of_mem _ hx))]
      simp [List.length_cons]
      omega

theorem get_history_loop_error_imp_none :
    ∀ (attempts : List AttemptOutcome) (cached : Option CacheEntry) (now : ℤ)
      (calls : ℕ) (le : Option String) (e : String),
      (get_history_loop attempts cached now calls le).2.2 = Except.error e → cached = none := by
  intro attempts
  induction attempts with
  | nil =>
    intro cached now calls le e h
    cases cached with
    | none => rfl
    | some c => simp [get_history_loop] at h
  | cons a rest ih =>
    intro cached now calls le e h
    cases a with
    | attempt_error msg => exact ih cached now (calls + 1) (some msg) e h
    | attempt_ok hist =>
      by_cases hemp : hist.isEmpty
      · rw [show get_history_loop (AttemptOutcome.attempt_ok hist :: rest) cached now calls le =
          if hist.isEmpty then get_history_loop rest cached now (calls + 1) (some "empty price history")
          else (some ⟨hist, now⟩, calls + 1, Except.ok hist) from rfl, if_pos hemp] at h
        exact ih cached now (calls + 1) _ e h
      · rw [show get_history_loop (AttemptOutcome.attempt_ok hist :: rest) cached now calls le =
          if hist.isEmpty then get_history_loop rest cached now (calls + 1) (some "empty price history")
          else (some ⟨hist, now⟩, calls + 1, Except.ok hist) from rfl, if_neg hemp] at h
        simp at h

theorem get_history_unfold_some (attempts : List AttemptOutcome) (c : CacheEntry) (now ttl : ℤ) :
    get_history attempts (some c) now ttl =
      if now - c.fetched_at < ttl then (some c, 0, Except.ok c.data)
      else get_history_loop attempts (some c) now 0 none := rfl

theorem fetch_with_retry_state (t : String) :
    ∀ (outcomes : List FetchOutcome) (lg : Option (List HistPoint)) (le : Option String),
      (fetch_with_retry t outcomes lg le).1 = lg ∨
      ∃ raw, FetchOutcome.fetched raw ∈ outcomes ∧
        validate_history (raw.map round_point) t = none ∧
        (fetch_with_retry t outcomes lg le).1 =
          some (update_last_good_history (raw.map round_point)) := by
  intro outcomes
  induction outcomes with
  | nil =>
    intro lg le
    left
    cases lg <;> rfl
  | cons o rest ih =>
    intro lg le
    cases o with
    | fetch_error e =>
      rcases ih lg (some e) with h | ⟨raw, hm, hv, hst⟩
      · exact Or.inl h
      · exact Or.inr ⟨raw, List.mem_cons_of_mem _ hm, hv, hst⟩
    | fetched raw =>
      rcases hv : validate_history (raw.map round_point) t with _ | reason
      · right
        refine ⟨raw, List.mem_cons_self _ _, hv, ?_⟩
        rw [show fetch_with_retry t (FetchOutcome.fetched raw :: rest) lg le =
          (match validate_history (raw.map round_point) t with
           | none => (some (update_last_good_history (raw.map round_point)),
               Except.ok (raw.map round_point))
           | some reason => fetch_with_retry t rest lg (some reason)) from rfl, hv]
      · rw [show fetch_with_retry t (FetchOutcome.fetched raw :: rest) lg le =
          (match validate_history (raw.map round_point) t with
           | none => (some (update_last_good_history (raw.map round_point)),
               Except.ok (raw.map round_point))
           | some reason => fetch_with_retry t rest lg (some reason)) from rfl, hv]
        rcases ih lg (some reason) with h | ⟨raw2, hm, hv2, hst⟩
        · exact Or.inl h
        · exact Or.inr ⟨raw2, List.mem_cons_of_mem _ hm, hv2, hst⟩

theorem fetch_with_retry_all_invalid (t : String) :
    ∀ (outcomes : List FetchOutcome) (lg : Option (List HistPoint)) (le : Option String),
      (∀ raw, FetchOutcome.fetched raw ∈ outcomes →
        validate_history (raw.map round_point) t ≠ none) →
      (fetch_with_retry t outcomes lg le).1 = lg := by
  intro outcomes
  induction outcomes with
  | nil =>
    intro lg le _
    cases lg <;> rfl
  | cons o rest ih =>
    intro lg le hinv
    cases o with
    | fetch_error e =>
      exact ih lg (some e) (fun raw hm => hinv raw (List.mem_cons_of_mem _ hm))
    | fetched raw =>
      rcases hv : validate_history (raw.map round_point) t with _ | reason
      · exact absurd hv (hinv raw (List.mem_cons_self _ _))
      · rw [show fetch_with_retry t (FetchOutcome.fetched raw :: rest) lg le =
          (match validate_history (raw.map round_point) t with
           | none => (some (update_last_good_history (raw.map round_point)),
               Except.ok (raw.map round_point))
           | some reason => fetch_with_retry t rest lg (some reason)) from rfl, hv]
        exact ih lg (some reason) (fun raw2 hm => hinv raw2 (List.mem_cons_of_mem _ hm))

/-- C5: the last-good snapshot is updated only by a freshly fetched series
that passes validation, is never cleared, and any all-failing sequence of
attempts (errors or invalid series) leaves it — and the TTL cache entry —
unchanged. -/
theorem C5_last_good_update_discipline :
    (∀ (t : String) (outcomes : List FetchOutcome) (lg : Option (List HistPoint)),
      (∀ raw, FetchOutcome.fetched raw ∈ outcomes →
        validate_history (raw.map round_point) t ≠ none) →
      (fetch_with_retry t outcomes lg none).1 = lg)
    ∧ (∀ (t : String) (outcomes : List FetchOutcome) (lg : Option (List HistPoint)),
        (fetch_with_retry t outcomes lg none).1 = lg ∨
        ∃ raw, FetchOutcome.fetched raw ∈ outcomes ∧
          validate_history (raw.map round_point) t = none ∧
          (fetch_with_retry t outcomes lg none).1 =
            some (update_last_good_history (raw.map round_point)))
    ∧ (∀ (t : String) (outcomes : List FetchOutcome) (lg : Option (List HistPoint))
        (le : Option String), lg ≠ none → (fetch_with_retry t outcomes lg le).1 ≠ none)
    ∧ (∀ (attempts : List AttemptOutcome) (cached : Option CacheEntry) (now ttl : ℤ),
        (∀ a ∈ attempts, attempt_fails a) →
        (get_history attempts cached now ttl).1 = cached) := by
  refine ⟨?_, ?_, ?_, ?_⟩
  · intro t outcomes lg h
    exact fetch_with_retry_all_invalid t outcomes lg none h
  · intro t outcomes lg
    exact fetch_with_retry_state t outcomes lg none
  · intro t outcomes lg le hne
    rcases fetch_with_retry_state t outcomes lg le with h | ⟨raw, _, _, hst⟩
    · rw [h]
      exact hne
    · rw [hst]
      exact Option.some_ne_none _
  · intro attempts cached now ttl hfail
    cases cached with
    | none => exact get_history_loop_fail_fst attempts none now 0 none hfail
    | some c =>
      rw [get_history_unfold_some]
      by_cases hf : now - c.fetched_at < ttl
      · rw [if_pos hf]
      · rw [if_neg hf]
        exact get_history_loop_fail_fst attempts (some c) now 0 none hfail

/-- Witness for C5 at a concrete all-failing attempt list. -/
theorem C5_last_good_update_discipline_witness :
    (fetch_with_retry "SP500"
      [FetchOutcome.fetch_error "boom", FetchOutcome.fetched []]
      (some [((0:ℤ), PyVal.pyval 4000)]) none).1 = some [((0:ℤ), PyVal.pyval 4000)] :=
  C5_last_good_update_discipline.1 "SP500" _ _
    (by
      intro raw hm
      rcases hm with _ | ⟨_, hm⟩
      · rcases hm with ⟨⟩ | ⟨_, h⟩
        · intro hc
          simp [validate_history] at hc
        · cases h
      )

/-- C6: a cache hit under an unexpired TTL returns the cached series with no
provider call and no cache mutation. -/
theorem C6_fresh_cache_idempotent (attempts : List AttemptOutcome) (c : CacheEntry)
    (now ttl : ℤ) (h : now - c.fetched_at < ttl) :
    get_history attempts (some c) now ttl = (some c, 0, Except.ok c.data) := by
  rw [get_history_unfold_some, if_pos h]

/-- Witness for C6 at a concrete fresh cache entry. -/
theorem C6_fresh_cache_idempotent_witness :
    get_history [AttemptOutcome.attempt_error "down"]
      (some ⟨[((0:ℤ), (4000:ℚ))], 0⟩) 5 900 =
      (some ⟨[((0:ℤ), (4000:ℚ))], 0⟩, 0, Except.ok [((0:ℤ), (4000:ℚ))]) :=
  C6_fresh_cache_idempotent [AttemptOutcome.attempt_error "down"]
    ⟨[((0:ℤ), (4000:ℚ))], 0⟩ 5 900 (by decide)

/-- C10: with an expired cache entry and every attempt failing, `get_history`
returns the stale cached series (making one provider call per attempt and
leaving the entry in place); a `PriceHistoryFetchError` is raised only when no
cache entry exists for the key. -/
theorem C10_stale_cache_fallback :
    (∀ (attempts : List AttemptOutcome) (c : CacheEntry) (now ttl : ℤ),
      ttl ≤ now - c.fetched_at → (∀ a ∈ attempts, attempt_fails a) →
      get_history attempts (some c) now ttl =
        (some c, attempts.length, Except.ok c.data))
    ∧ (∀ (attempts : List AttemptOutcome) (cached : Option CacheEntry) (now ttl : ℤ)
        (e : String),
        (get_history attempts cached now ttl).2.2 = Except.error e → cached = none) := by
  constructor
  · intro attempts c now ttl hstale hfail
    rw [get_history_unfold_some, if_neg (not_lt.mpr hstale)]
    have := get_history_loop_fail_some c attempts now 0 none hfail
    rw [this, Nat.zero_add]
  · intro attempts cached now ttl e herr
    cases cached with
    | none => rfl
    | some c =>
      rw [get_history_unfold_some] at herr
      by_cases hf : now - c.fetched_at < ttl
      · rw [if_pos hf] at herr
        simp at herr
      · rw [if_neg hf] at herr
        exact get_history_loop_error_imp_none attempts (some c) now 0 none e herr

/-- Witness for C10 at a concrete expired entry with one failing attempt. -/
theorem C10_stale_cache_fallback_witness :
    get_history [AttemptOutcome.attempt_error "down"]
      (some ⟨[((0:ℤ), (4000:ℚ))], 0⟩) 901 900 =
      (some ⟨[((0:ℤ), (4000:ℚ))], 0⟩, 1, Except.ok [((0:ℤ), (4000:ℚ))]) :=
  C10_stale_cache_fallback.1 [AttemptOutcome.attempt_error "down"]
    ⟨[((0:ℤ), (4000:ℚ))], 0⟩ 901 900 (by decide)
    (by
      intro a ha
      rcases ha with ⟨⟩ | ⟨_, h⟩
      · exact trivial
      · cases h)

/-- C7 counterexample: two histories with different actual point counts (3 and
5) produce the *same* insufficient-history error message, so the error cannot
carry the specific actual point count the claim promises. -/
theorem C7_error_message_counterexample :
    ∃ m, run_backtest (fun _ => 0) (List.replicate 3 ((0:ℤ), (100:ℚ))) 100 40 80 200 =
        Except.error m ∧
      run_backtest (fun _ => 0) (List.replicate 5 ((0:ℤ), (100:ℚ))) 100 40 80 200 =
        Except.error m ∧
      (List.replicate 3 ((0:ℤ), (100:ℚ))).length ≠ (List.replicate 5 ((0:ℤ), (100:ℚ))).length :=
  ⟨insufficient_history_message 200, rfl, rfl, by decide⟩

/-- C7 amended: `run_backtest` fails exactly when the history has fewer than
`max(200, scoreWindow)` points; the failure is raised before any scoring,
trade, or portfolio entry is produced, and its message names the required
point count (but not the actual count). -/
theorem C7_insufficient_history_amended (score : List (ℤ × ℚ) → ℚ)
    (ph : List (ℤ × ℚ)) (cash buyT sellT : ℚ) (sma : ℕ) :
    (ph.length < max 200 sma →
      run_backtest score ph cash buyT sellT sma =
        Except.error (insufficient_history_message (max 200 sma)))
    ∧ (max 200 sma ≤ ph.length →
        ∃ res, run_backtest score ph cash buyT sellT sma = Except.ok res) := by
  constructor
  · intro h
    unfold run_backtest
    dsimp only
    rw [if_pos h]
  · intro h
    unfold run_backtest
    dsimp only
    rw [if_neg (not_lt.mpr h)]
    rcases hbt : bt_loop score ph sma buyT sellT 0 ph cash 0 with ⟨c, s, tr, phh⟩
    simp only [hbt]
    exact ⟨_, rfl⟩

/-- Witness for the amended C7: a 3-point history is rejected with the fixed
required-count message. -/
theorem C7_insufficient_history_amended_witness :
    run_backtest (fun _ => 0) (List.replicate 3 ((0:ℤ), (100:ℚ))) 100 40 80 200 =
      Except.error (insufficient_history_message (max 200 200)) :=
  (C7_insufficient_history_amended (fun _ => 0) (List.replicate 3 ((0:ℤ), (100:ℚ)))
    100 40 80 200).1 (by decide)

/-! ## Helper lemmas: backtest loop -/

theorem bt_trade_shares_nonneg (score : List (ℤ × ℚ) → ℚ) (full : List (ℤ × ℚ))
    (sma : ℕ) (buyT sellT : ℚ) (idx : ℕ) (d : ℤ) (close cash : ℚ) (shares : ℤ)
    (h : 0 ≤ shares) :
    0 ≤ (bt_trade score full sma buyT sellT idx d close cash shares).2.1 := by
  unfold bt_trade
  dsimp only
  split_ifs with h1 h2 h3 h4
  · exact le_refl 0
  · show 0 ≤ shares + ⌊cash / close⌋
    rw [h3.1]
    linarith [h4]
  · exact h
  · exact h
  · exact h

theorem bt_trade_pos_qty (score : List (ℤ × ℚ) → ℚ) (full : List (ℤ × ℚ))
    (sma : ℕ) (buyT sellT : ℚ) (idx : ℕ) (d : ℤ) (close cash : ℚ) (shares : ℤ)
    (t : Trade) (ht : (bt_trade score full sma buyT sellT idx d close cash shares).2.2 = some t) :
    0 < t.quantity := by
  unfold bt_trade at ht
  dsimp only at ht
  split_ifs at ht with h1 h2 h3 h4
  · have := Option.some.inj ht
    subst this
    exact h2.1
  · have := Option.some.inj ht
    subst this
    exact h4

theorem bt_loop_ph_eq (score : List (ℤ × ℚ) → ℚ) (full : List (ℤ × ℚ))
    (sma : ℕ) (buyT sellT : ℚ) :
    ∀ (days : List (ℤ × ℚ)) (idx : ℕ) (cash : ℚ) (shares : ℤ),
      (bt_loop score full sma buyT sellT idx days cash shares).2.2.2 =
        List.zipWith
          (fun (dc : ℤ × ℚ) (st : ℚ × ℤ) => (dc.1, round2 (st.1 + st.2 * dc.2)))
          days (bt_states score full sma buyT sellT idx days cash shares) := by
  intro days
  induction days with
  | nil => intro idx cash shares; rfl
  | cons dc rest ih =>
    intro idx cash shares
    rcases dc with ⟨d, close⟩
    rcases hbt : bt_trade score full sma buyT sellT idx d close cash shares with ⟨c2, s2, tr⟩
    rcases hrec : bt_loop score full sma buyT sellT (idx + 1) rest c2 s2 with ⟨fc, fs, ts, phh⟩
    have ihr := ih (idx + 1) c2 s2
    rw [hrec] at ihr
    simp only [bt_loop, bt_states, hbt, hrec, List.zipWith_cons_cons]
    exact congrArg _ ihr

theorem bt_states_length (score : List (ℤ × ℚ) → ℚ) (full : List (ℤ × ℚ))
    (sma : ℕ) (buyT sellT : ℚ) :
    ∀ (days : List (ℤ × ℚ)) (idx : ℕ) (cash : ℚ) (shares : ℤ),
      (bt_states score full sma buyT sellT idx days cash shares).length = days.length := by
  intro days
  induction days with
  | nil => intro idx cash shares; rfl
  | cons dc rest ih =>
    intro idx cash shares
    rcases dc with ⟨d, close⟩
    rcases hbt : bt_trade score full sma buyT sellT idx d close cash shares with ⟨c2, s2, tr⟩
    simp only [bt_states, hbt, List.length_cons]
    rw [ih]

theorem bt_states_nonneg (score : List (ℤ × ℚ) → ℚ) (full : List (ℤ × ℚ))
    (sma : ℕ) (buyT sellT : ℚ) :
    ∀ (days : List (ℤ × ℚ)) (idx : ℕ) (cash : ℚ) (shares : ℤ), 0 ≤ shares →
      ∀ st ∈ bt_states score full sma buyT sellT idx days cash shares, 0 ≤ st.2 := by
  intro days
  induction days with
  | nil =>
    intro idx cash shares _ st hst
    simp [bt_states] at hst
  | cons dc rest ih =>
    intro idx cash shares hsh st hst
    rcases dc with ⟨d, close⟩
    rcases hbt : bt_trade score full sma buyT sellT idx d close cash shares with ⟨c2, s2, tr⟩
    have hs2 : 0 ≤ s2 := by
      have := bt_trade_shares_nonneg score full sma buyT sellT idx d close cash shares hsh
      rw [hbt] at this
      exact this
    simp only [bt_states, hbt, List.mem_cons] at hst
    rcases hst with rfl | hst
    · exact hs2
    · exact ih (idx + 1) c2 s2 hs2 st hst

theorem bt_loop_trades_pos (score : List (ℤ × ℚ) → ℚ) (full : List (ℤ × ℚ))
    (sma : ℕ) (buyT sellT : ℚ) :
    ∀ (days : List (ℤ × ℚ)) (idx : ℕ) (cash : ℚ) (shares : ℤ), 0 ≤ shares →
      ∀ t ∈ (bt_loop score full sma buyT sellT idx days cash shares).2.2.1, 0 < t.quantity := by
  intro days
  induction days with
  | nil =>
    intro idx cash shares _ t ht
    simp [bt_loop] at ht
  | cons dc rest ih =>
    intro idx cash shares hsh t ht
    rcases dc with ⟨d, close⟩
    rcases hbt : bt_trade score full sma buyT sellT idx d close cash shares with ⟨c2, s2, tr⟩
    have hs2 : 0 ≤ s2 := by
      have := bt_trade_shares_nonneg score full sma buyT sellT idx d close cash shares hsh
      rw [hbt] at this
      exact this
    rcases hrec : bt_loop score full sma buyT sellT (idx + 1) rest c2 s2 with ⟨fc, fs, ts, phh⟩
    simp only [bt_loop, hbt, hrec, List.mem_append] at ht
    rcases ht with ht | ht
    · have htr : tr = some t := by
        cases tr with
        | none => simp at ht
        | some t0 =>
          simp [Option.toList] at ht
          rw [ht]
      have := bt_trade_pos_qty score full sma buyT sellT idx d close cash shares t
      rw [hbt] at this
      exact this htr
    · have := ih (idx + 1) c2 s2 hs2 t
      rw [hrec] at this
      exact this ht

/-- C8: on any successful run, each portfolio-history entry equals
`(date, round(cash + shares*close, 2))` for that day's post-trade state, the
share count is non-negative throughout the simulation, and every recorded
trade has a positive whole-share quantity. -/
theorem C8_portfolio_conservation (score : List (ℤ × ℚ) → ℚ) (ph : List (ℤ × ℚ))
    (cash0 buyT sellT : ℚ) (sma : ℕ) (h : max 200 sma ≤ ph.length) :
    ∃ res, run_backtest score ph cash0 buyT sellT sma = Except.ok res ∧
      res.portfolio_history =
        List.zipWith
          (fun (dc : ℤ × ℚ) (st : ℚ × ℤ) => (dc.1, round2 (st.1 + st.2 * dc.2)))
          ph (bt_states score ph sma buyT sellT 0 ph cash0 0) ∧
      res.portfolio_history.length = ph.length ∧
      (∀ st ∈ bt_states score ph sma buyT sellT 0 ph cash0 0, 0 ≤ st.2) ∧
      (∀ t ∈ res.trades, 0 < t.quantity) := by
  unfold run_backtest
  dsimp only
  rw [if_neg (not_lt.mpr h)]
  rcases hbt : bt_loop score ph sma buyT sellT 0 ph cash0 0 with ⟨c, s, tr, phh⟩
  simp only [hbt]
  have hph : phh =
      List.zipWith
        (fun (dc : ℤ × ℚ) (st : ℚ × ℤ) => (dc.1, round2 (st.1 + st.2 * dc.2)))
        ph (bt_states score ph sma buyT sellT 0 ph cash0 0) := by
    have := bt_loop_ph_eq score ph sma buyT sellT ph 0 cash0 0
    rw [hbt] at this
    exact this
  refine ⟨_, rfl, hph, ?_, ?_, ?_⟩
  · rw [hph, List.length_zipWith, bt_states_length]
    exact Nat.min_self _
  · exact bt_states_nonneg score ph sma buyT sellT ph 0 cash0 0 (le_refl 0)
  · intro t ht
    have := bt_loop_trades_pos score ph sma buyT sellT ph 0 cash0 0 (le_refl 0) t
    rw [hbt] at this
    exact this ht

/-- Witness for C8 on a concrete 200-day run. -/
theorem C8_portfolio_conservation_witness :
    ∃ res, run_backtest (fun _ => 50) (List.replicate 200 ((0:ℤ), (100:ℚ))) 0 40 80 200 =
        Except.ok res ∧
      res.portfolio_history =
        List.zipWith
          (fun (dc : ℤ × ℚ) (st : ℚ × ℤ) => (dc.1, round2 (st.1 + st.2 * dc.2)))
          (List.replicate 200 ((0:ℤ), (100:ℚ)))
          (bt_states (fun _ => 50) (List.replicate 200 ((0:ℤ), (100:ℚ))) 200 40 80 0
            (List.replicate 200 ((0:ℤ), (100:ℚ))) 0 0) ∧
      res.portfolio_history.length = (List.replicate 200 ((0:ℤ), (100:ℚ))).length ∧
      (∀ st ∈ bt_states (fun _ => 50) (List.replicate 200 ((0:ℤ), (100:ℚ))) 200 40 80 0
          (List.replicate 200 ((0:ℤ), (100:ℚ))) 0 0, 0 ≤ st.2) ∧
      (∀ t ∈ res.trades, 0 < t.quantity) :=
  C8_portfolio_conservation (fun _ => 50) (List.replicate 200 ((0:ℤ), (100:ℚ)))
    0 40 80 200 (by decide)

/-! ## Helper lemmas: scale invariance of the technical score -/

theorem tech_d_map_mul (closes : List ℚ) (bw : ℕ) (k : ℚ) (hk : k ≠ 0) :
    tech_d (closes.map (fun c => k * c)) bw = tech_d closes bw := by
  unfold tech_d
  dsimp only
  rw [ma_list_map_mul, getLastD_map_mul, getLastD_map_mul]
  by_cases hm : (ma_list closes bw).getLastD 0 = 0
  · rw [hm]
    simp
  · rw [show k * closes.getLastD 0 - k * (ma_list closes bw).getLastD 0 =
        k * (closes.getLastD 0 - (ma_list closes bw).getLastD 0) by ring,
      mul_div_mul_left _ _ hk]

theorem is_increasing_map_mul (l : List ℚ) (k : ℚ) (hk : 0 < k) :
    is_increasing (l.map (fun c => k * c)) = is_increasing l := by
  unfold is_increasing
  rw [List.length_map]
  by_cases h : l.length < 20
  · rw [if_pos h, if_pos h]
  · rw [if_neg h, if_neg h, getD_map_mul, getLastD_map_mul]
    simp only [mul_lt_mul_left hk]

theorem is_decreasing_map_mul (l : List ℚ) (k : ℚ) (hk : 0 < k) :
    is_decreasing (l.map (fun c => k * c)) = is_decreasing l := by
  unfold is_decreasing
  rw [List.length_map]
  by_cases h : l.length < 20
  · rw [if_pos h, if_pos h]
  · rw [if_neg h, if_neg h, getD_map_mul, getLastD_map_mul]
    simp only [mul_lt_mul_left hk]

theorem tech_t_trend_map_mul (closes : List ℚ) (bw : ℕ) (k : ℚ) (hk : 0 < k) :
    tech_t_trend (closes.map (fun c => k * c)) bw = tech_t_trend closes bw := by
  unfold tech_t_trend
  dsimp only
  rw [ma_list_map_mul, ma_list_map_mul, ma_list_map_mul,
    getLastD_map_mul, getLastD_map_mul, getLastD_map_mul, List.length_map,
    ← List.map_drop, is_increasing_map_mul _ _ hk, is_decreasing_map_mul _ _ hk]
  simp only [mul_lt_mul_left hk]

/-- C9: multiplying every close of an accepted history by a positive constant
leaves the deviation `d`, the piecewise base score `T_base`, and the trend
bonus `T_trend` of `calculate_technical_score` unchanged, and the scaled
history is accepted as well. -/
theorem C9_scale_invariance (ph : List (ℤ × ℚ)) (bw : ℕ) (k : ℚ) (hk : 0 < k)
    (hacc : (calculate_technical_score ph bw).isSome = true) :
    tech_d ((ph.map (fun p => (p.1, k * p.2))).map Prod.snd) bw =
      tech_d (ph.map Prod.snd) bw ∧
    t_base_piecewise (tech_d ((ph.map (fun p => (p.1, k * p.2))).map Prod.snd) bw) =
      t_base_piecewise (tech_d (ph.map Prod.snd) bw) ∧
    tech_t_trend ((ph.map (fun p => (p.1, k * p.2))).map Prod.snd) bw =
      tech_t_trend (ph.map Prod.snd) bw ∧
    (calculate_technical_score (ph.map (fun p => (p.1, k * p.2))) bw).isSome = true := by
  have hmap : (ph.map (fun p => (p.1, k * p.2))).map Prod.snd =
      (ph.map Prod.snd).map (fun c => k * c) := by
    rw [List.map_map, List.map_map]
    rfl
  have hlen : ¬ ((ph.map Prod.snd).length < max 200 bw) := by
    intro hc
    unfold calculate_technical_score at hacc
    dsimp only at hacc
    rw [if_pos hc] at hacc
    simp at hacc
  refine ⟨?_, ?_, ?_, ?_⟩
  · rw [hmap, tech_d_map_mul _ bw k (ne_of_gt hk)]
  · rw [hmap, tech_d_map_mul _ bw k (ne_of_gt hk)]
  · rw [hmap, tech_t_trend_map_mul _ bw k hk]
  · unfold calculate_technical_score
    dsimp only
    rw [if_neg (by rw [hmap, List.length_map]; exact hlen)]
    rfl

/-- Witness for C9 at a concrete accepted history and factor 2. -/
theorem C9_scale_invariance_witness :
    0 < (2:ℚ) ∧
    tech_d (((List.replicate 200 ((0:ℤ), (100:ℚ))).map (fun p => (p.1, 2 * p.2))).map Prod.snd) 200 =
      tech_d ((List.replicate 200 ((0:ℤ), (100:ℚ))).map Prod.snd) 200 :=
  ⟨by decide,
   (C9_scale_invariance (List.replicate 200 ((0:ℤ), (100:ℚ))) 200 2 (by decide) (by rfl)).1⟩

/-! ## Helper lemmas: validation -/

theorem check_prices_none_iff :
    ∀ (l : List PyVal) (prev : Option ℚ), (∀ p, prev = some p → 0 < p) →
      (check_prices prev l = none ↔
        (∀ v ∈ l, is_positive_float v) ∧
        List.Chain' jump_ok (prev.toList ++ l.map pyval_q)) := by
  intro l
  induction l with
  | nil =>
    intro prev _
    cases prev <;> simp [check_prices]
  | cons v rest ih =>
    intro prev hprev
    cases v with
    | pynone =>
      cases prev <;> simp [check_prices, is_positive_float]
    | pynan =>
      cases prev <;> simp [check_prices, is_positive_float]
    | pyval q =>
      by_cases hq : q ≤ 0
      · have h0 : check_prices prev (PyVal.pyval q :: rest) =
            some ("invalid_price:non_positive:" ++ toString q) := by
          cases prev <;> simp [check_prices, hq]
        rw [h0]
        simp [is_positive_float, List.forall_mem_cons, not_lt.mpr hq]
      · have hq2 : 0 < q := lt_of_not_le hq
        cases prev with
        | none =>
          have h0 : check_prices none (PyVal.pyval q :: rest) = check_prices (some q) rest := by
            simp [check_prices, hq]
          rw [h0, ih (some q) (fun p hp => by cases hp; exact hq2)]
          simp [is_positive_float, hq2, List.forall_mem_cons, pyval_q]
        | some p =>
          have hp : 0 < p := hprev p rfl
          by_cases hj : (1:ℚ)/5 < |(q - p) / p|
          · have hu : check_prices (some p) (PyVal.pyval q :: rest) =
                if q ≤ 0 then some ("invalid_price:non_positive:" ++ toString q)
                else if 0 < p ∧ (1:ℚ)/5 < |(q - p) / p| then
                  some ("abnormal_daily_jump:" ++ toString |(q - p) / p|)
                else check_prices (some q) rest := rfl
            have h0 : check_prices (some p) (PyVal.pyval q :: rest) =
                some ("abnormal_daily_jump:" ++ toString |(q - p) / p|) := by
              rw [hu, if_neg hq, if_pos ⟨hp, hj⟩]
            rw [h0]
            constructor
            · intro hcontr
              simp at hcontr
            · rintro ⟨-, hch⟩
              simp only [Option.toList, List.cons_append, List.nil_append,
                List.map_cons, List.chain'_cons, pyval_q] at hch
              exact absurd hch.1 (not_le.mpr hj)
          · have hu : check_prices (some p) (PyVal.pyval q :: rest) =
                if q ≤ 0 then some ("invalid_price:non_positive:" ++ toString q)
                else if 0 < p ∧ (1:ℚ)/5 < |(q - p) / p| then
                  some ("abnormal_daily_jump:" ++ toString |(q - p) / p|)
                else check_prices (some q) rest := rfl
            have h0 : check_prices (some p) (PyVal.pyval q :: rest) =
                check_prices (some q) rest := by
              have hc : ¬ (0 < p ∧ (1:ℚ)/5 < |(q - p) / p|) := by
                rintro ⟨-, hc2⟩
                exact hj hc2
              rw [hu, if_neg hq, if_neg hc]
            have hjk : jump_ok p q := not_lt.mp hj
            rw [h0, ih (some q) (fun p2 hp2 => by cases hp2; exact hq2)]
            simp only [Option.toList, List.cons_append, List.nil_append,
              List.map_cons, List.chain'_cons, List.forall_mem_cons, pyval_q]
            constructor
            · rintro ⟨hall, hch⟩
              exact ⟨⟨hq2, hall⟩, hjk, hch⟩
            · rintro ⟨⟨-, hall⟩, -, hch⟩
              exact ⟨hall, hch⟩

theorem chain'_iff_no_jump (qs : List ℚ) :
    List.Chain' jump_ok qs ↔
      ¬ ∃ i a b, qs.get? i = some a ∧ qs.get? (i + 1) = some b ∧ 1/5 < |(b - a) / a| := by
  rw [List.chain'_iff_get]
  constructor
  · rintro hch ⟨i, a, b, ha, hb, hj⟩
    obtain ⟨hb1, hb2⟩ := List.get?_eq_some.mp hb
    obtain ⟨ha1, ha2⟩ := List.get?_eq_some.mp ha
    have hi : i < qs.length - 1 := by omega
    have := hch i hi
    rw [ha2, hb2] at this
    exact absurd hj (not_lt.mpr this)
  · intro hno i hi
    by_contra hcon
    have h1 : i < qs.length := by omega
    have h2 : i + 1 < qs.length := by omega
    exact hno ⟨i, qs.get ⟨i, h1⟩, qs.get ⟨i + 1, h2⟩,
      (List.get?_eq_get h1), (List.get?_eq_get h2), not_le.mp hcon⟩

theorem check_prices_replicate_val (p : ℚ) (hp : 0 < p) :
    ∀ (n : ℕ) (l : List PyVal),
      check_prices (some p) (List.replicate n (PyVal.pyval p) ++ l) =
        check_prices (some p) l := by
  intro n
  induction n with
  | zero => intro l; rfl
  | succ m ih =>
    intro l
    rw [List.replicate_succ, List.cons_append]
    have hc : ¬ (0 < p ∧ (1:ℚ)/5 < |(p - p) / p|) := by
      rintro ⟨-, hj⟩
      rw [sub_self, zero_div, abs_zero] at hj
      exact absurd hj (by norm_num)
    have h0 : check_prices (some p) (PyVal.pyval p :: (List.replicate m (PyVal.pyval p) ++ l)) =
        check_prices (some p) (List.replicate m (PyVal.pyval p) ++ l) := by
      simp [check_prices, not_le.mpr hp, hc]
    rw [h0, ih]

theorem validate_history_none_iff (h : List HistPoint) (t : String) :
    validate_history h t = none ↔ ¬ (claimed_defect h t ∨ scale_defect h t) := by
  have hu : validate_history h t =
      if h.isEmpty then some "empty_history"
      else if h.length < 30 then some ("too_few_points:" ++ toString h.length)
      else if 365 * 3 ≤ history_span_days h ∧ h.length < min_points_for t then
        some ("insufficient_points:" ++ toString h.length ++ "<" ++ toString (min_points_for t))
      else
        match check_prices none (h.map (fun p => p.2)) with
        | some reason => some reason
        | none =>
          if t = "SP500" ∧ history_last_value h < 3000 then
            some ("abnormal_sp500_price:" ++ toString (history_last_value h))
          else
            match start_price_for t with
            | some start_price =>
              if history_last_value h < start_price * (4/10) then
                some ("abnormal_scale_low:" ++ toString (history_last_value h))
              else if start_price * 5 < history_last_value h then
                some ("abnormal_scale_high:" ++ toString (history_last_value h))
              else none
            | none => none := rfl
  have hvals : (h.map (fun p => p.2)).map pyval_q = history_values h := by
    rw [List.map_map]
    rfl
  by_cases hemp : h.isEmpty
  · rw [hu, if_pos hemp]
    have he : h = [] := List.isEmpty_iff.mp hemp
    constructor
    · intro habs
      simp at habs
    · intro hrhs
      exact absurd (Or.inl (Or.inl he)) hrhs
  · rw [hu, if_neg hemp]
    by_cases h30 : h.length < 30
    · rw [if_pos h30]
      constructor
      · intro habs
        simp at habs
      · intro hrhs
        exact absurd (Or.inl (Or.inr (Or.inl h30))) hrhs
    · rw [if_neg h30]
      by_cases hspan : 365 * 3 ≤ history_span_days h ∧ h.length < min_points_for t
      · rw [if_pos hspan]
        constructor
        · intro habs
          simp at habs
        · intro hrhs
          exact absurd (Or.inl (Or.inr (Or.inr (Or.inl hspan)))) hrhs
      · rw [if_neg hspan]
        rcases hcp : check_prices none (h.map (fun p => p.2)) with _ | reason
        · simp only [hcp]
          have hval := (check_prices_none_iff (h.map fun p => p.2) none
            (fun p hp => by cases hp)).mp hcp
          have hch : List.Chain' jump_ok (history_values h) := by
            have := hval.2
            rwa [Option.toList, List.nil_append, hvals] at this
          have hnojump := (chain'_iff_no_jump (history_values h)).mp hch
          have hallpos : ∀ p ∈ h, is_positive_float p.2 := by
            intro p hpmem
            exact hval.1 _ (List.mem_map_of_mem _ hpmem)
          have hncd : ¬ claimed_defect h t := by
            intro hcd
            unfold claimed_defect at hcd
            rcases hcd with he | hA | hA | ⟨p, hpmem, hpneg⟩ | hex
            · exact hemp (by rw [he]; rfl)
            · exact h30 hA
            · exact hspan hA
            · exact hpneg (hallpos p hpmem)
            · exact hnojump hex
          by_cases hsp : t = "SP500" ∧ history_last_value h < 3000
          · rw [if_pos hsp]
            constructor
            · intro habs
              simp at habs
            · intro hrhs
              exact absurd (Or.inr (Or.inl hsp)) hrhs
          · rw [if_neg hsp]
            rcases hst : start_price_for t with _ | sp
            · simp only [hst]
              constructor
              · intro _
                rintro (hcd | hsd)
                · exact hncd hcd
                · unfold scale_defect at hsd
                  rcases hsd with hsd1 | ⟨sp2, hsp2, -⟩
                  · exact hsp hsd1
                  · rw [hst] at hsp2
                    simp at hsp2
              · intro _
                trivial
            · simp only [hst]
              by_cases hlow : history_last_value h < sp * (4/10)
              · rw [if_pos hlow]
                constructor
                · intro habs
                  simp at habs
                · intro hrhs
                  exact absurd (Or.inr (Or.inr ⟨sp, hst, Or.inl hlow⟩)) hrhs
              · rw [if_neg hlow]
                by_cases hhigh : sp * 5 < history_last_value h
                · rw [if_pos hhigh]
                  constructor
                  · intro habs
                    simp at habs
                  · intro hrhs
                    exact absurd (Or.inr (Or.inr ⟨sp, hst, Or.inr hhigh⟩)) hrhs
                · rw [if_neg hhigh]
                  constructor
                  · intro _
                    rintro (hcd | hsd)
                    · exact hncd hcd
                    · unfold scale_defect at hsd
                      rcases hsd with hsd1 | ⟨sp2, hsp2, hbound⟩
                      · exact hsp hsd1
                      · rw [hst] at hsp2
                        have hspeq : sp2 = sp := (Option.some.inj hsp2).symm
                        subst hspeq
                        rcases hbound with hb | hb
                        · exact hlow hb
                        · exact hhigh hb
                  · intro _
                    trivial
        · simp only [hcp]
          constructor
          · intro habs
            simp at habs
          · intro hrhs
            exfalso
            apply hrhs
            left
            unfold claimed_defect
            by_cases hv : ∀ v ∈ h.map (fun p => p.2), is_positive_float v
            · by_cases hch : List.Chain' jump_ok (history_values h)
              · have hnone : check_prices none (h.map fun p => p.2) = none := by
                  rw [check_prices_none_iff _ none (fun p hp => by cases hp)]
                  refine ⟨hv, ?_⟩
                  rw [Option.toList, List.nil_append, hvals]
                  exact hch
                rw [hnone] at hcp
                simp at hcp
              · right
                right
                right
                right
                exact not_not.mp (fun hno => hch ((chain'_iff_no_jump _).mpr hno))
            · right
              right
              right
              left
              obtain ⟨v, hvm, hvneg⟩ : ∃ v ∈ h.map (fun p => p.2), ¬ is_positive_float v := by
                push_neg at hv
                exact hv
              obtain ⟨p, hpmem, rfl⟩ := List.mem_map.mp hvm
              exact ⟨p, hpmem, hvneg⟩

theorem validate_history_unfold (h : List HistPoint) (t : String) :
    validate_history h t =
      if h.isEmpty then some "empty_history"
      else if h.length < 30 then some ("too_few_points:" ++ toString h.length)
      else if 365 * 3 ≤ history_span_days h ∧ h.length < min_points_for t then
        some ("insufficient_points:" ++ toString h.length ++ "<" ++ toString (min_points_for t))
      else
        match check_prices none (h.map (fun p => p.2)) with
        | some reason => some reason
        | none =>
          if t = "SP500" ∧ history_last_value h < 3000 then
            some ("abnormal_sp500_price:" ++ toString (history_last_value h))
          else
            match start_price_for t with
            | some start_price =>
              if history_last_value h < start_price * (4/10) then
                some ("abnormal_scale_low:" ++ toString (history_last_value h))
              else if start_price * 5 < history_last_value h then
                some ("abnormal_scale_high:" ++ toString (history_last_value h))
              else none
            | none => none := rfl

theorem check_prices_flat2500 :
    check_prices none (ex_flat2500.map (fun p => p.2)) = none := by
  have hm : ex_flat2500.map (fun p => p.2) =
      PyVal.pyval 2500 :: List.replicate 39 (PyVal.pyval 2500) := rfl
  rw [hm]
  have hstep : check_prices none (PyVal.pyval (2500:ℚ) :: List.replicate 39 (PyVal.pyval 2500)) =
      check_prices (some 2500) (List.replicate 39 (PyVal.pyval 2500)) := by
    have hu : check_prices none (PyVal.pyval (2500:ℚ) :: List.replicate 39 (PyVal.pyval 2500)) =
        if (2500:ℚ) ≤ 0 then some ("invalid_price:non_positive:" ++ toString (2500:ℚ))
        else check_prices (some 2500) (List.replicate 39 (PyVal.pyval 2500)) := rfl
    rw [hu, if_neg (by norm_num)]
  rw [hstep]
  have hrep := check_prices_replicate_val 2500 (by norm_num) 39 []
  rw [List.append_nil] at hrep
  rw [hrep]
  rfl

/-- C4 counterexample: a 40-point S&P 500 series of constant closes 2500 has
none of the defects the claim enumerates, yet `_validate_history` rejects it
(with the out-of-scale reason `abnormal_sp500_price`). -/
theorem C4_validation_exactness_counterexample :
    validate_history ex_flat2500 "SP500" =
      some ("abnormal_sp500_price:" ++ toString (history_last_value ex_flat2500)) ∧
    ¬ claimed_defect ex_flat2500 "SP500" := by
  constructor
  · rw [validate_history_unfold]
    rw [if_neg (by decide), if_neg (by decide)]
    rw [if_neg (by
      rintro ⟨h1, -⟩
      have h0 : history_span_days ex_flat2500 = 0 := rfl
      rw [h0] at h1
      exact absurd h1 (by decide))]
    simp only [check_prices_flat2500]
    rw [if_pos (by
      refine ⟨by simp, ?_⟩
      have hlv : history_last_value ex_flat2500 = 2500 := rfl
      rw [hlv]
      norm_num)]
  · intro hcd
    unfold claimed_defect at hcd
    rcases hcd with he | hA | hA | ⟨p, hpmem, hpneg⟩ | ⟨i, a, b, ha, hb, hj⟩
    · exact absurd he (by simp [ex_flat2500])
    · exact absurd hA (by decide)
    · have h0 : history_span_days ex_flat2500 = 0 := rfl
      rw [h0] at hA
      exact absurd hA.1 (by decide)
    · have hp2 : p.2 = PyVal.pyval 2500 := by
        simp only [ex_flat2500, List.mem_cons, List.mem_replicate] at hpmem
        rcases hpmem with rfl | ⟨-, rfl⟩ <;> rfl
      rw [hp2] at hpneg
      exact hpneg (show (0:ℚ) < 2500 by norm_num)
    · have hv : history_values ex_flat2500 = List.replicate 40 (2500:ℚ) := rfl
      rw [hv] at ha hb
      rw [List.get?_eq_getElem?, List.getElem?_replicate] at ha
      rw [List.get?_eq_getElem?, List.getElem?_replicate] at hb
      by_cases hi : i < 40
      · rw [if_pos hi] at ha
        by_cases hi2 : i + 1 < 40
        · rw [if_pos hi2] at hb
          have ha2 := Option.some.inj ha
          have hb2 := Option.some.inj hb
          rw [← ha2, ← hb2] at hj
          norm_num at hj
        · rw [if_neg hi2] at hb
          simp at hb
      · rw [if_neg hi] at ha
        simp at ha

theorem check_prices_jump40 :
    check_prices none (ex_jump40.map (fun p => p.2)) =
      some ("abnormal_daily_jump:" ++ toString |((130:ℚ) - 100) / 100|) := by
  have hm : ex_jump40.map (fun p => p.2) =
      PyVal.pyval 100 :: (List.replicate 38 (PyVal.pyval 100) ++ [PyVal.pyval 130]) := rfl
  rw [hm]
  have hstep : check_prices none
      (PyVal.pyval (100:ℚ) :: (List.replicate 38 (PyVal.pyval 100) ++ [PyVal.pyval 130])) =
      check_prices (some 100) (List.replicate 38 (PyVal.pyval 100) ++ [PyVal.pyval 130]) := by
    have hu : check_prices none
        (PyVal.pyval (100:ℚ) :: (List.replicate 38 (PyVal.pyval 100) ++ [PyVal.pyval 130])) =
        if (100:ℚ) ≤ 0 then some ("invalid_price:non_positive:" ++ toString (100:ℚ))
        else check_prices (some 100) (List.replicate 38 (PyVal.pyval 100) ++ [PyVal.pyval 130]) := rfl
    rw [hu, if_neg (by norm_num)]
  rw [hstep, check_prices_replicate_val 100 (by norm_num) 38 [PyVal.pyval 130]]
  have hu3 : check_prices (some (100:ℚ)) [PyVal.pyval 130] =
      if (130:ℚ) ≤ 0 then some ("invalid_price:non_positive:" ++ toString (130:ℚ))
      else if (0:ℚ) < 100 ∧ (1:ℚ)/5 < |((130:ℚ) - 100) / 100| then
        some ("abnormal_daily_jump:" ++ toString |((130:ℚ) - 100) / 100|)
      else check_prices (some 130) [] := rfl
  rw [hu3, if_neg (by norm_num), if_pos ⟨by norm_num, by
    rw [show ((130:ℚ) - 100) / 100 = 3/10 by norm_num, abs_of_pos (by norm_num)]
    norm_num⟩]

/-- C4 amended: `_validate_history` returns a typed rejection reason exactly
for the claim's listed defects plus the final-price scale guards (S&P 500
floor 3000; the `[0.4, 5.0] × start price` band); the spec's 40-point jump
example is rejected with a reason starting `abnormal_daily_jump`. -/
theorem C4_validation_defects_amended :
    (∀ (h : List HistPoint) (t : String),
      validate_history h t = none ↔ ¬ (claimed_defect h t ∨ scale_defect h t))
    ∧ (∀ t : String, ∃ s, validate_history ex_jump40 t =
        some ("abnormal_daily_jump:" ++ s)) := by
  refine ⟨validate_history_none_iff, ?_⟩
  intro t
  refine ⟨toString |((130:ℚ) - 100) / 100|, ?_⟩
  rw [validate_history_unfold]
  rw [if_neg (by decide), if_neg (by decide)]
  rw [if_neg (by
    rintro ⟨h1, -⟩
    have h0 : history_span_days ex_jump40 = 0 := rfl
    rw [h0] at h1
    exact absurd h1 (by decide))]
  simp only [check_prices_jump40]

/-! ## Helper lemmas: concrete evaluation of the convergence detector -/

theorem exCloses_ma200 : (ma_list exCloses 200).getLastD 0 = 389/4 := by
  rw [ma_list_getLastD exCloses 200 (by norm_num) (by decide)]
  rw [show exCloses.length - 200 = 0 from rfl]
  norm_num [exCloses, List.drop_append_eq_append_drop, List.take_append_eq_append_take,
    List.drop_replicate, List.take_replicate, List.sum_append, List.sum_replicate, smul_eq_mul]

theorem exCloses_ma50 : (ma_list exCloses 50).getLastD 0 = 89 := by
  rw [ma_list_getLastD exCloses 50 (by norm_num) (by decide)]
  rw [show exCloses.length - 50 = 150 from rfl]
  norm_num [exCloses, List.drop_append_eq_append_drop, List.take_append_eq_append_take,
    List.drop_replicate, List.take_replicate, List.sum_append, List.sum_replicate, smul_eq_mul]

theorem exCloses_ma25 : (ma_list exCloses 25).getLastD 0 = 82 := by
  rw [ma_list_getLastD exCloses 25 (by norm_num) (by decide)]
  rw [show exCloses.length - 25 = 175 from rfl]
  norm_num [exCloses, List.drop_append_eq_append_drop, List.take_append_eq_append_take,
    List.drop_replicate, List.take_replicate, List.sum_append, List.sum_replicate, smul_eq_mul]

theorem exCloses_ma10 : (ma_list exCloses 10).getLastD 0 = 85 := by
  rw [ma_list_getLastD exCloses 10 (by norm_num) (by decide)]
  rw [show exCloses.length - 10 = 190 from rfl]
  norm_num [exCloses, List.drop_append_eq_append_drop, List.take_append_eq_append_take,
    List.drop_replicate, List.take_replicate, List.sum_append, List.sum_replicate, smul_eq_mul]

theorem exCloses_ma10_back5 : (ma_list exCloses 10).getD 185 0 = 80 := by
  rw [ma_list_getD exCloses 10 185 (by decide)]
  norm_num [exCloses, List.drop_append_eq_append_drop, List.take_append_eq_append_take,
    List.drop_replicate, List.take_replicate, List.sum_append, List.sum_replicate, smul_eq_mul]

theorem exCloses_ma25_back5 : (ma_list exCloses 25).getD 170 0 = 80 := by
  rw [ma_list_getD exCloses 25 170 (by decide)]
  norm_num [exCloses, List.drop_append_eq_append_drop, List.take_append_eq_append_take,
    List.drop_replicate, List.take_replicate, List.sum_append, List.sum_replicate, smul_eq_mul]

theorem exCloses_slope10 : slope_of (ma_list exCloses 10) 5 = some 1 := by
  have hu : slope_of (ma_list exCloses 10) 5 =
      if (ma_list exCloses 10).length < 5 + 1 then none
      else some (((ma_list exCloses 10).getLastD 0 -
        (ma_list exCloses 10).getD ((ma_list exCloses 10).length - (5 + 1)) 0) / 5) := rfl
  have hlen10 : (ma_list exCloses 10).length = 191 := by
    rw [length_ma_list]
    rfl
  rw [hu, if_neg (by rw [hlen10]; norm_num), hlen10]
  rw [show (191 : ℕ) - (5 + 1) = 185 from rfl, exCloses_ma10, exCloses_ma10_back5]
  rw [show ((85:ℚ) - 80) / 5 = 1 from by norm_num]

theorem exCloses_slope25 : slope_of (ma_list exCloses 25) 5 = some (2/5) := by
  have hu : slope_of (ma_list exCloses 25) 5 =
      if (ma_list exCloses 25).length < 5 + 1 then none
      else some (((ma_list exCloses 25).getLastD 0 -
        (ma_list exCloses 25).getD ((ma_list exCloses 25).length - (5 + 1)) 0) / 5) := rfl
  have hlen25 : (ma_list exCloses 25).length = 176 := by
    rw [length_ma_list]
    rfl
  rw [hu, if_neg (by rw [hlen25]; norm_num), hlen25]
  rw [show (176 : ℕ) - (5 + 1) = 170 from rfl, exCloses_ma25, exCloses_ma25_back5]
  rw [show ((82:ℚ) - 80) / 5 = 2/5 from by norm_num]

theorem detect_exCloses :
    detect_ma200_convergence exCloses =
      { side := "up_convergence", score := 75, speed := "normal",
        danger := 1491/50, deviation_200 := some (-373/50) } := by
  unfold detect_ma200_convergence
  rw [if_neg (by decide : ¬ (exCloses.length < 200))]
  dsimp only
  rw [show exCloses.getLastD 0 = 90 from rfl, exCloses_ma200, exCloses_ma25,
    exCloses_ma50, exCloses_ma10, exCloses_slope10, exCloses_slope25]
  rw [show ((90:ℚ) - 389/4) / (389/4) = -29/389 from by norm_num]
  rw [if_neg (not_not_intro (Or.inr (by norm_num : (-29/389 : ℚ) ≤ -(5/100))))]
  rw [if_neg (by norm_num : ¬ ((5:ℚ)/100 ≤ -29/389))]
  have hsc : (if (82:ℚ) < 85 then (30:ℚ) else 0) + (if (89:ℚ) ≤ 82 then 25 else 0)
      + (if slope_gt_zero (some 1) then 20 else 0)
      + (if slope_ge_zero (some (2/5)) then 10 else 0)
      + (if (85:ℚ) < 90 then 15 else 0) = 75 := by
    rw [if_pos (by norm_num : (82:ℚ) < 85), if_neg (by norm_num : ¬ ((89:ℚ) ≤ 82)),
      if_pos (show slope_gt_zero (some 1) = true from rfl),
      if_pos (show slope_ge_zero (some (2/5)) = true from by
        simp only [slope_ge_zero, decide_eq_true_eq]
        norm_num),
      if_pos (by norm_num : (85:ℚ) < 90)]
    norm_num
  rw [hsc]
  have hclampsc : round2 (max 0 (min (75:ℚ) 100)) = 75 := by
    rw [min_eq_left (by norm_num : (75:ℚ) ≤ 100), max_eq_right (by norm_num : (0:ℚ) ≤ 75)]
    exact round2_eq_self_of_int 75 7500 (by norm_num)
  rw [hclampsc]
  have hdanger : round2 (min (|(-29/389 : ℚ)| / (25/100)) 1 * 100) = 1491/50 := by
    rw [abs_of_neg (by norm_num : (-29/389 : ℚ) < 0)]
    rw [show (-(-29/389) : ℚ) / (25/100) = 116/389 from by norm_num]
    rw [min_eq_left (by norm_num : (116/389 : ℚ) ≤ 1)]
    rw [round2_eq_of_lt_half (116/389 * 100) 2982 (by norm_num) (by norm_num)]
    norm_num
  rw [hdanger]
  have hdevfield : round2 ((-29/389 : ℚ) * 100) = -373/50 := by
    rw [round2_eq_of_lt_half ((-29/389 : ℚ) * 100) (-746) (by norm_num) (by norm_num)]
    norm_num
  rw [hdevfield]
  have hspeed : (if ((82:ℚ) < 85 ∧ (89:ℚ) < 82) ∧ slope_gt_zero (some 1) then "fast"
      else if ((82:ℚ) < 85 ∧ ¬ (89:ℚ) ≤ 82) ∧ slope_gt_zero (some 1) then "normal"
      else if slope_gt_zero (some 1) then "slow" else "unknown") = "normal" := by
    rw [if_neg (by rintro ⟨⟨-, hx⟩, -⟩; norm_num at hx)]
    rw [if_pos ⟨⟨by norm_num, by norm_num⟩, show slope_gt_zero (some 1) = true from rfl⟩]
  rw [hspeed]

theorem conv_adjustment_exCloses :
    calc_convergence_adjustment (detect_ma200_convergence exCloses) CONVERGENCE_ADJ_MAX =
      -4473/2500 := by
  rw [detect_exCloses]
  unfold calc_convergence_adjustment
  dsimp only
  rw [if_neg (by decide : ¬ ("up_convergence" = "down_convergence")), if_pos rfl]
  unfold CONVERGENCE_ADJ_MAX
  norm_num

theorem ex_price_history_closes : ex_price_history.map Prod.snd = exCloses := by
  rw [ex_price_history, List.map_map]
  simp

/-- C1: the history `exCloses` has its last close only about 7.45% below the
200-day moving average (deviation −29/389, inside the claimed dead zone
`|deviation| < 15%`), yet `detect_ma200_convergence` activates (its trigger
constant is 0.05, contradicting the inline `# 15%` comment and the spec) and
the convergence adjustment computed inside `calculate_technical_score` is
−4473/2500 ≈ −1.79, not 0. -/
theorem C1_convergence_trigger_code_bug :
    (exCloses.getLastD 0 - (ma_list exCloses 200).getLastD 0) /
        (ma_list exCloses 200).getLastD 0 = -29/389 ∧
    |(-29/389 : ℚ)| < 15/100 ∧
    (5:ℚ)/100 ≤ |(-29/389 : ℚ)| ∧
    (detect_ma200_convergence exCloses).deviation_200 = some (-373/50) ∧
    calc_convergence_adjustment (detect_ma200_convergence exCloses) CONVERGENCE_ADJ_MAX =
      -4473/2500 ∧
    (-4473/2500 : ℚ) ≠ 0 ∧
    (calculate_technical_score ex_price_history 200).map (fun r => r.2.T_conv_adj) =
      some (round2 (-4473/2500)) ∧
    round2 (-4473/2500 : ℚ) ≠ 0 := by
  have habs : |(-29/389 : ℚ)| = 29/389 := by
    rw [abs_of_neg (by norm_num : (-29/389 : ℚ) < 0)]
    norm_num
  refine ⟨?_, ?_, ?_, ?_, conv_adjustment_exCloses, by norm_num, ?_, ?_⟩
  · rw [show exCloses.getLastD 0 = 90 from rfl, exCloses_ma200]
    norm_num
  · rw [habs]
    norm_num
  · rw [habs]
    norm_num
  · rw [detect_exCloses]
  · have hproj : (calculate_technical_score ex_price_history 200).map (fun r => r.2.T_conv_adj) =
        some (round2 (calc_convergence_adjustment
          (detect_ma200_convergence (ex_price_history.map Prod.snd)) CONVERGENCE_ADJ_MAX)) := rfl
    rw [hproj, ex_price_history_closes, conv_adjustment_exCloses]
  · rw [round2_eq_of_lt_half (-4473/2500 : ℚ) (-179) (by norm_num) (by norm_num)]
    norm_num
